import Mathlib

/-!
Shallow embedding of the debug REPL model
(`src/vs/workbench/contrib/debug/common/replModel.ts`).

Text is modelled as `List Char`; element identities are modelled by the
tagged type `ElemId` mirroring the id string formats used by the source
(`topReplElement:<n>` from `getUniqueId`, `replGroup:<n>` from the
`ReplGroup` constructor, `generateUuid()` results, and the derived child
ids `parentId:<index>` built by `RawObjectReplElement.getChildren`).
The change emitters are modelled by counters on the store state:
`fireCount` counts firings of `_onDidChangeElements` and
`countFireCount` counts firings of the per-element `_onDidChangeCount`.
-/

/-- Identity of a repl element, mirroring the id string formats of the
source: `topReplElement:<n>`, `replGroup:<n>`, a generated uuid, or a
child id `<parent>:<index>`. -/
inductive ElemId where
  | top (n : Nat)
  | groupId (n : Nat)
  | uuid (n : Nat)
  | child (parent : ElemId) (idx : Nat)
deriving DecidableEq, Repr

/-- Severity enum from `vs/base/common/severity` (Ignore, Info, Warning, Error). -/
inductive Severity where
  | ignore
  | info
  | warning
  | error
deriving DecidableEq, Repr

/-- An `IReplElementSource` locator: the fields compared by `areSourcesEqual`
(column, lineNumber, and the source uri rendered as a string). -/
structure SourceRef where
  column : Nat
  lineNumber : Nat
  uri : String
deriving DecidableEq, Repr

/-- The `valueObj` of a `RawObjectReplElement`: null, an array, a keyed
object (own enumerable string keys in insertion order), a string, or some
other scalar rendered by `String(...)`. -/
inductive RawValue where
  | vnull
  | varr (xs : List RawValue)
  | vobj (fields : List (String × RawValue))
  | vstr (s : String)
  | vother (s : String)

/-- A repl element (`IReplElement`): `SimpleReplElement`,
`RawObjectReplElement`, `ReplEvaluationInput`, `ReplEvaluationResult`, or
`ReplGroup` (whose mutable `children` array and `ended` flag are carried
as fields). -/
inductive ReplElement where
  | simple (session : Nat) (id : ElemId) (value : List Char) (sev : Severity)
      (sourceData : Option SourceRef) (count : Nat)
  | rawObject (id : ElemId) (name : String) (valueObj : RawValue)
      (sourceData : Option SourceRef) (annot : Option String)
  | evalInput (id : ElemId) (value : List Char)
  | evalResult (id : ElemId) (available : Bool)
  | group (id : ElemId) (name : String) (autoExpand : Bool)
      (sourceData : Option SourceRef) (children : List ReplElement) (ended : Bool)

/-- The `getId()` method common to all element kinds. -/
def getIdElem : ReplElement → ElemId
  | .simple _ id _ _ _ _ => id
  | .rawObject id _ _ _ _ => id
  | .evalInput id _ => id
  | .evalResult id _ => id
  | .group id _ _ _ _ _ => id

/-- The check `lastElement instanceof ReplGroup && !lastElement.hasEnded`. -/
def isOpenGroup : ReplElement → Bool
  | .group _ _ _ _ _ ended => !ended
  | _ => false

/-- The check `lastElement instanceof ReplGroup`. -/
def isGroupE : ReplElement → Bool
  | .group _ _ _ _ _ _ => true
  | _ => false

/-- A group with `ended = true`. -/
def isClosedGroup : ReplElement → Bool
  | .group _ _ _ _ _ ended => ended
  | _ => false

mutual

/-- The body of `ReplGroup.addChild` on a whole element (identity on
non-groups; only ever applied to groups by the store). -/
def addChildElem (c : ReplElement) : ReplElement → ReplElement
  | .group id n ae src ch ended => .group id n ae src (childrenAdd c ch) ended
  | e => e

/-- Embedding of `ReplGroup.addChild` acting on a children list: if the
last element is a still-open group, delegate to it recursively, otherwise
push the child at the end. -/
def childrenAdd (c : ReplElement) : List ReplElement → List ReplElement
  | [] => [c]
  | [.group id n ae src ch false] => [addChildElem c (.group id n ae src ch false)]
  | [e] => [e, c]
  | e :: rest => e :: childrenAdd c rest

end

mutual

/-- Embedding of `ReplGroup.end`: if the last child is a still-open group,
delegate `end` to it recursively, otherwise mark this group as ended.
Identity on non-groups (the store only calls it on groups). -/
def endGroupElem : ReplElement → ReplElement
  | .group id n ae src ch ended =>
      match endChildren ch with
      | some ch2 => .group id n ae src ch2 ended
      | none => .group id n ae src ch true
  | e => e

/-- Helper for `endGroupElem`: returns `some` of the updated children list
when the last child is a still-open group (which is then ended), and
`none` otherwise. -/
def endChildren : List ReplElement → Option (List ReplElement)
  | [] => none
  | [.group id n ae src ch false] => some [endGroupElem (.group id n ae src ch false)]
  | [_] => none
  | e :: rest => (endChildren rest).map (fun r => e :: r)

end

/-- The constant `MAX_REPL_LENGTH` of the source. -/
def MAX_REPL_LENGTH : Nat := 10000

/-- The constant `RawObjectReplElement.MAX_CHILDREN` of the source. -/
def MAX_CHILDREN : Nat := 1000

/-- State of a `ReplModel` together with its surrounding effect context:
the element array, the consumed configuration flag
`debug.console.collapseIdenticalLines`, counters standing for the global
id generators (`topReplElementCounter`, `ReplGroup.COUNTER`,
`generateUuid`), and counters of notification firings. -/
structure ReplModel where
  replElements : List ReplElement
  collapseIdenticalLines : Bool
  fireCount : Nat
  countFireCount : Nat
  idCounter : Nat
  groupCounter : Nat
  uuidCounter : Nat

/-- A fresh, empty store. -/
def ReplModel.mkEmpty (collapse : Bool) : ReplModel :=
  { replElements := []
    collapseIdenticalLines := collapse
    fireCount := 0
    countFireCount := 0
    idCounter := 0
    groupCounter := 0
    uuidCounter := 0 }

/-- Whether the last element of a list is a still-open group. -/
def lastIsOpenGroup (l : List ReplElement) : Bool :=
  match l.getLast? with
  | some e => isOpenGroup e
  | none => false

/-- The top-level push half of `ReplModel.addReplElement`: push the element,
then `splice(0, length - MAX_REPL_LENGTH)` when the bound is exceeded, and
fire `_onDidChangeElements`. -/
def ReplModel.pushTop (m : ReplModel) (e : ReplElement) : ReplModel :=
  let l := m.replElements ++ [e]
  let l2 := if MAX_REPL_LENGTH < l.length then l.drop (l.length - MAX_REPL_LENGTH) else l
  { m with replElements := l2, fireCount := m.fireCount + 1 }

/-- Embedding of `ReplModel.addReplElement`: if the last top-level element
is a still-open group, delegate to its `addChild`, otherwise push at top
level with eviction; fire `_onDidChangeElements` exactly once either way. -/
def ReplModel.addReplElement (m : ReplModel) (e : ReplElement) : ReplModel :=
  match m.replElements.getLast? with
  | some last =>
      if isOpenGroup last then
        { m with replElements := m.replElements.dropLast ++ [addChildElem e last]
                 fireCount := m.fireCount + 1 }
      else m.pushTop e
  | none => m.pushTop e

/-- Embedding of `ReplModel.startGroup`: create a fresh open group with id
`replGroup:<COUNTER++>` and insert it via `addReplElement`. -/
def ReplModel.startGroup (m : ReplModel) (name : String) (autoExpand : Bool)
    (sourceData : Option SourceRef) : ReplModel :=
  ReplModel.addReplElement { m with groupCounter := m.groupCounter + 1 }
    (.group (.groupId m.groupCounter) name autoExpand sourceData [] false)

/-- Embedding of `ReplModel.endGroup`: if the last top-level element is a
group (ended or not), call its `end()`; otherwise do nothing. Never fires
the store-level notification. -/
def ReplModel.endGroup (m : ReplModel) : ReplModel :=
  match m.replElements.getLast? with
  | some last =>
      if isGroupE last then
        { m with replElements := m.replElements.dropLast ++ [endGroupElem last] }
      else m
  | none => m

/-- Embedding of `ReplModel.removeReplExpressions` (the `clear()` of the
spec): empty the element array and fire, but only when it was non-empty. -/
def ReplModel.removeReplExpressions (m : ReplModel) : ReplModel :=
  if 0 < m.replElements.length then
    { m with replElements := [], fireCount := m.fireCount + 1 }
  else m

/-- Embedding of the free function `areSourcesEqual`: both absent are
equal, both present compare column, line number and uri string, one
present and one absent are unequal. -/
def areSourcesEqual : Option SourceRef → Option SourceRef → Bool
  | none, none => true
  | some a, some b => a.column == b.column && a.lineNumber == b.lineNumber && a.uri == b.uri
  | _, _ => false

/-- The check `value.endsWith('\n')`. -/
def endsWithNl (v : List Char) : Bool := List.isSuffixOf ['\n'] v

/-- The check `value.endsWith('\r\n')`. -/
def endsWithCrNl (v : List Char) : Bool := List.isSuffixOf ['\r', '\n'] v

/-- The ansi clear-screen escape sequence `\u001b[2J`. -/
def clearSeq : List Char := ['\x1b', '[', '2', 'J']

/-- The localized synthetic message `"Console was cleared"`. -/
def consoleClearedMsg : List Char := "Console was cleared".toList

/-- The check `data.indexOf(needle) >= 0`: whether `needle` occurs as a
contiguous subsequence of the list. -/
def hasSeq (needle : List Char) : List Char → Bool
  | [] => needle.isEmpty
  | c :: rest => needle.isPrefixOf (c :: rest) || hasSeq needle rest

/-- Embedding of `data.substring(data.lastIndexOf(clearAnsiSequence) +
clearAnsiSequence.length)`: the substring following the last occurrence of
the clear sequence (the no-occurrence result is never used, as the caller
checks occurrence first). -/
def afterLastClear : List Char → List Char
  | [] => []
  | c :: rest =>
      if hasSeq clearSeq rest then afterLastClear rest
      else if clearSeq.isPrefixOf (c :: rest) then (c :: rest).drop clearSeq.length
      else afterLastClear rest

/-- Construction of a fresh `SimpleReplElement` with `getUniqueId()`
followed by `addReplElement`, shared by the three non-coalescing exits of
`appendToRepl`. -/
def ReplModel.pushNewSimple (m : ReplModel) (session : Nat) (data : List Char)
    (sev : Severity) (source : Option SourceRef) : ReplModel :=
  ReplModel.addReplElement { m with idCounter := m.idCounter + 1 }
    (.simple session (.top m.idCounter) data sev source 1)

/-- Embedding of the string-coalescing part of `ReplModel.appendToRepl`
(the block guarded by `typeof data === 'string'` after clear handling):
if the previous element is a `SimpleReplElement` of the same severity,
either bump its count (identical text, equal sources, collapse enabled;
fires only the count emitter), or glue the text onto the previous line
(text not newline-terminated and count 1; replaces the last slot in place
with a freshly identified element and fires the store emitter), otherwise
insert a fresh element via `addReplElement`. -/
def ReplModel.appendSimple (m : ReplModel) (session : Nat) (data : List Char)
    (sev : Severity) (source : Option SourceRef) : ReplModel :=
  match m.replElements.getLast? with
  | some (.simple psession pid pval psev psrc pcount) =>
      if psev = sev then
        if pval = data ∧ areSourcesEqual psrc source = true ∧ m.collapseIdenticalLines = true then
          { m with
            replElements :=
              m.replElements.dropLast ++ [.simple psession pid pval psev psrc (pcount + 1)],
            countFireCount := m.countFireCount + 1 }
        else if endsWithNl pval = false ∧ endsWithCrNl pval = false ∧ pcount = 1 then
          { m with
            replElements :=
              m.replElements.dropLast ++
                [.simple session (.top m.idCounter) (pval ++ data) sev source 1],
            idCounter := m.idCounter + 1,
            fireCount := m.fireCount + 1 }
        else m.pushNewSimple session data sev source
      else m.pushNewSimple session data sev source
  | _ => m.pushNewSimple session data sev source

/-- Embedding of `ReplModel.appendToRepl` on string data: when the clear
sequence occurs in the data, clear the store, append the synthetic
`"Console was cleared"` message with severity `Ignore` through the
recursive self-call, and continue with the substring after the last
occurrence; then run the coalescing policy. The source performs the
synthetic append by calling `appendToRepl` on itself; since the cleared
message contains no clear sequence (`clearSeq_not_in_consoleClearedMsg`
below), that call takes the non-clear branch and the embedding inlines it
as `appendSimple`. -/
def ReplModel.appendToRepl (m : ReplModel) (session : Nat) (data : List Char)
    (sev : Severity) (source : Option SourceRef) : ReplModel :=
  if hasSeq clearSeq data then
    ReplModel.appendSimple
      (ReplModel.appendSimple m.removeReplExpressions session consoleClearedMsg .ignore none)
      session (afterLastClear data) sev source
  else
    ReplModel.appendSimple m session data sev source

theorem clearSeq_not_in_consoleClearedMsg : hasSeq clearSeq consoleClearedMsg = false := by
  decide

/-- Modelled from the spec: `ExpressionContainer.evaluateExpression` (in
`debugModel.ts`, outside the provided sources) resolves the typed
expression against the evaluation subsystem and returns whether it
succeeded; `ReplEvaluationResult.evaluateExpression` stores that boolean
in its `_available` flag and never throws. The embedding takes the
subsystem outcome as the boolean `outcome`.

Embedding of `ReplModel.addReplExpression`: insert a
`ReplEvaluationInput` (fresh uuid) carrying the typed text, then insert a
`ReplEvaluationResult` (fresh uuid) whose `available` flag is the
evaluation outcome. -/
def ReplModel.addReplExpression (m : ReplModel) (text : List Char) (outcome : Bool) :
    ReplModel :=
  let m1 := ReplModel.addReplElement { m with uuidCounter := m.uuidCounter + 1 }
    (.evalInput (.uuid m.uuidCounter) text)
  ReplModel.addReplElement { m1 with uuidCounter := m1.uuidCounter + 1 }
    (.evalResult (.uuid m1.uuidCounter) outcome)

/-- Pairing of a list with indices starting at `i`, mirroring the index
argument supplied by `Array.prototype.map`. -/
def withIdx : List α → Nat → List (Nat × α)
  | [], _ => []
  | a :: r, i => (i, a) :: withIdx r (i + 1)

/-- Embedding of `RawObjectReplElement.hasChildren`: true iff the wrapped
value is a non-empty array, or an object (arrays and null are not objects)
with at least one own property name. -/
def rawHasChildren : RawValue → Bool
  | .varr xs => decide (0 < xs.length)
  | .vobj fs => decide (0 < fs.length)
  | _ => false

/-- Embedding of `RawObjectReplElement.getChildren` (the resolved value of
the returned promise): for an array, the first `MAX_CHILDREN` elements,
each wrapped with id `<parent>:<index>` and name `String(index)`; for an
object, the first `MAX_CHILDREN` own properties, each wrapped with id
`<parent>:<index>` and the key as name (own property names are the field
keys in insertion order, and JS objects cannot carry duplicate keys, so
the looked-up value is the one paired with the key); empty otherwise. -/
def rawGetChildren (id : ElemId) : RawValue → List ReplElement
  | .varr xs =>
      (withIdx (xs.take MAX_CHILDREN) 0).map
        (fun p => .rawObject (.child id p.1) (toString p.1) p.2 none none)
  | .vobj fs =>
      (withIdx (fs.take MAX_CHILDREN) 0).map
        (fun p => .rawObject (.child id p.1) p.2.1 p.2.2 none none)
  | _ => []

/-- Length of an indexed pairing. -/
theorem withIdx_length (l : List α) (i : Nat) : (withIdx l i).length = l.length := by
  induction l generalizing i with
  | nil => rfl
  | cons a r ih => simp [withIdx, ih]

example : (ReplModel.mkEmpty true).removeReplExpressions = ReplModel.mkEmpty true := rfl

example :
    ((ReplModel.mkEmpty true).appendToRepl 0 "hi".toList .info none).replElements =
      [.simple 0 (.top 0) "hi".toList .info none 1] := rfl

example :
    (((ReplModel.mkEmpty true).appendToRepl 0 "hi".toList .info none).appendToRepl 0
        "hi".toList .info none).replElements =
      [.simple 0 (.top 0) "hi".toList .info none 2] := rfl

example :
    ((ReplModel.mkEmpty true).appendToRepl 0 "\x1b[2Jab\x1b[2Jcd".toList .info
        none).replElements =
      [.simple 0 (.top 0) consoleClearedMsg .ignore none 1,
       .simple 0 (.top 1) "cd".toList .info none 1] := rfl

/-- Ids of the wrapped children of an array value are the parent id
extended with the running index. -/
theorem rawChildren_ids_arr (id : ElemId) (l : List RawValue) (i : Nat) :
    ((withIdx l i).map
        (fun p => ReplElement.rawObject (.child id p.1) (toString p.1) p.2 none none)).map
        getIdElem =
      (List.range' i l.length).map (ElemId.child id) := by
  induction l generalizing i with
  | nil => rfl
  | cons a r ih =>
      simp only [withIdx, List.map_cons, List.length_cons, List.range'_succ, getIdElem]
      exact congrArg _ (ih (i + 1))

/-- Ids of the wrapped children of an object value are the parent id
extended with the running index. -/
theorem rawChildren_ids_obj (id : ElemId) (l : List (String × RawValue)) (i : Nat) :
    ((withIdx l i).map
        (fun p => ReplElement.rawObject (.child id p.1) p.2.1 p.2.2 none none)).map
        getIdElem =
      (List.range' i l.length).map (ElemId.child id) := by
  induction l generalizing i with
  | nil => rfl
  | cons a r ih =>
      simp only [withIdx, List.map_cons, List.length_cons, List.range'_succ, getIdElem]
      exact congrArg _ (ih (i + 1))

/-- C9: for every RawStructured entry, `hasChildren` is true iff the
wrapped value is a non-empty array or a map with at least one own key;
`getChildren()` returns at most 1000 children — exactly 1000 for a
1500-element array — each child's identity being the parent identity plus
the running index in enumeration order; and on any other value kind it
returns the empty sequence. -/
theorem c9_raw_structured_children (id : ElemId) (v : RawValue) :
    (rawGetChildren id v).length ≤ MAX_CHILDREN ∧
    (∀ xs, v = .varr xs → xs.length = 1500 →
      (rawGetChildren id v).length = MAX_CHILDREN) ∧
    ((rawGetChildren id v).map getIdElem =
      (List.range (rawGetChildren id v).length).map (ElemId.child id)) ∧
    (rawHasChildren v = true ↔
      ((∃ xs, v = .varr xs ∧ xs ≠ []) ∨ (∃ fs, v = .vobj fs ∧ fs ≠ []))) ∧
    ((∀ xs, v ≠ .varr xs) → (∀ fs, v ≠ .vobj fs) → rawGetChildren id v = []) := by
  refine ⟨?_, ?_, ?_, ?_, ?_⟩
  · cases v with
    | varr xs =>
        simp only [rawGetChildren, List.length_map, withIdx_length, List.length_take]
        exact Nat.min_le_left _ _
    | vobj fs =>
        simp only [rawGetChildren, List.length_map, withIdx_length, List.length_take]
        exact Nat.min_le_left _ _
    | vnull => exact Nat.zero_le _
    | vstr s => exact Nat.zero_le _
    | vother s => exact Nat.zero_le _
  · rintro xs rfl hxs
    simp only [rawGetChildren, List.length_map, withIdx_length, List.length_take, hxs]
    decide
  · cases v with
    | varr xs =>
        simp only [rawGetChildren, List.length_map, withIdx_length, List.range_eq_range']
        exact rawChildren_ids_arr id (xs.take MAX_CHILDREN) 0
    | vobj fs =>
        simp only [rawGetChildren, List.length_map, withIdx_length, List.range_eq_range']
        exact rawChildren_ids_obj id (fs.take MAX_CHILDREN) 0
    | vnull => rfl
    | vstr s => rfl
    | vother s => rfl
  · cases v <;> simp [rawHasChildren, List.length_pos]
  · intro ha ho
    cases v with
    | varr xs => exact absurd rfl (ha xs)
    | vobj fs => exact absurd rfl (ho fs)
    | vnull => rfl
    | vstr s => rfl
    | vother s => rfl

/-- Witness for C9 at a concrete 1500-element array: exactly 1000 children. -/
theorem c9_witness :
    (RawValue.varr (List.replicate 1500 .vnull) = RawValue.varr (List.replicate 1500 .vnull)) ∧
    (List.replicate 1500 RawValue.vnull).length = 1500 ∧
    (rawGetChildren (.uuid 0) (.varr (List.replicate 1500 .vnull))).length = MAX_CHILDREN :=
  ⟨rfl, by rw [List.length_replicate],
    (c9_raw_structured_children (.uuid 0) (.varr (List.replicate 1500 .vnull))).2.1
      (List.replicate 1500 .vnull) rfl (by rw [List.length_replicate])⟩

/-- C6: `clear()` on an empty store is a complete no-op (in particular it
fires no notification); on a non-empty store it empties the top level,
fires the store-level notification exactly once, and touches nothing
else. -/
theorem c6_clear_notifications (m : ReplModel) :
    (m.replElements = [] → m.removeReplExpressions = m) ∧
    (m.replElements ≠ [] →
      m.removeReplExpressions.replElements = [] ∧
      m.removeReplExpressions.fireCount = m.fireCount + 1 ∧
      m.removeReplExpressions.countFireCount = m.countFireCount ∧
      m.removeReplExpressions.collapseIdenticalLines = m.collapseIdenticalLines ∧
      m.removeReplExpressions.idCounter = m.idCounter ∧
      m.removeReplExpressions.groupCounter = m.groupCounter ∧
      m.removeReplExpressions.uuidCounter = m.uuidCounter) := by
  constructor
  · intro h
    simp [ReplModel.removeReplExpressions, h]
  · intro h
    have hl : 0 < m.replElements.length := List.length_pos.mpr h
    simp [ReplModel.removeReplExpressions, hl]

/-- Witness for C6: the empty store is left untouched, and a one-element
store is emptied with exactly one firing. -/
theorem c6_witness :
    ((ReplModel.mkEmpty true).removeReplExpressions = ReplModel.mkEmpty true) ∧
    (((ReplModel.mkEmpty true).pushNewSimple 0 ['a'] .info none).removeReplExpressions.replElements
        = [] ∧
      ((ReplModel.mkEmpty true).pushNewSimple 0 ['a'] .info
            none).removeReplExpressions.fireCount =
        ((ReplModel.mkEmpty true).pushNewSimple 0 ['a'] .info none).fireCount + 1) := by
  refine ⟨(c6_clear_notifications (ReplModel.mkEmpty true)).1 rfl, ?_⟩
  have h := (c6_clear_notifications ((ReplModel.mkEmpty true).pushNewSimple 0 ['a'] .info none)).2
    (by
      intro hc
      rw [show ((ReplModel.mkEmpty true).pushNewSimple 0 ['a'] Severity.info none).replElements =
          [ReplElement.simple 0 (ElemId.top 0) ['a'] Severity.info none 1] from rfl] at hc
      exact List.cons_ne_nil _ _ hc)
  exact ⟨h.1, h.2.1⟩

example :
    endGroupElem (.group (.groupId 0) "A" false none [] false) =
      (.group (.groupId 0) "A" false none [] true) := rfl

example :
    endGroupElem (.group (.groupId 0) "A" false none
        [.evalInput (.uuid 0) [], .group (.groupId 1) "B" false none [] false] false) =
      (.group (.groupId 0) "A" false none
        [.evalInput (.uuid 0) [], .group (.groupId 1) "B" false none [] true] false) := rfl

/-- Adding a child to a singleton children list whose element is not an
open group pushes at the end. -/
theorem childrenAdd_notOpen (e : ReplElement) (h : isOpenGroup e = false)
    (c : ReplElement) : childrenAdd c [e] = [e, c] := by
  cases e with
  | group id n ae src ch ended =>
      cases ended with
      | false => simp [isOpenGroup] at h
      | true => rfl
  | simple s id v sev src cnt => rfl
  | rawObject id n v src an => rfl
  | evalInput id v => rfl
  | evalResult id a => rfl

/-- Adding a child walks past every element except the last. -/
theorem childrenAdd_cons (c x y : ReplElement) (rest : List ReplElement) :
    childrenAdd c (x :: y :: rest) = x :: childrenAdd c (y :: rest) := by
  cases x with
  | group id n ae src ch ended => cases ended <;> rfl
  | simple s id v sev src cnt => rfl
  | rawObject id n v src an => rfl
  | evalInput id v => rfl
  | evalResult id a => rfl

/-- Closing delegation stops on a singleton children list whose element is
not an open group. -/
theorem endChildren_notOpen (e : ReplElement) (h : isOpenGroup e = false) :
    endChildren [e] = none := by
  cases e with
  | group id n ae src ch ended =>
      cases ended with
      | false => simp [isOpenGroup] at h
      | true => rfl
  | simple s id v sev src cnt => rfl
  | rawObject id n v src an => rfl
  | evalInput id v => rfl
  | evalResult id a => rfl

/-- Closing delegation walks past every element except the last. -/
theorem endChildren_cons (x y : ReplElement) (rest : List ReplElement) :
    endChildren (x :: y :: rest) = (endChildren (y :: rest)).map (fun r => x :: r) := by
  cases x with
  | group id n ae src ch ended => cases ended <;> rfl
  | simple s id v sev src cnt => rfl
  | rawObject id n v src an => rfl
  | evalInput id v => rfl
  | evalResult id a => rfl

/-- Unfolding of `endGroupElem` on a group. -/
theorem endGroupElem_group (id : ElemId) (n : String) (ae : Bool) (src : Option SourceRef)
    (ch : List ReplElement) (ended : Bool) :
    endGroupElem (.group id n ae src ch ended) =
      match endChildren ch with
      | some ch2 => .group id n ae src ch2 ended
      | none => .group id n ae src ch true := rfl

/-- Store shape reached along the worked grouping scenario of C1. -/
def c1State (cfg : Bool) (l : List ReplElement) (fire gc : Nat) : ReplModel :=
  { replElements := l, collapseIdenticalLines := cfg, fireCount := fire,
    countFireCount := 0, idCounter := 0, groupCounter := gc, uuidCounter := 0 }

/-- C1: the call sequence startGroup "A"; insert x; startGroup "B";
insert y; endGroup; insert z; endGroup on an empty store yields exactly
one top-level group "A" with children [x, group "B" [y], z]: inserts and
endGroup are routed recursively to the deepest open group, so the first
endGroup closes only "B" and z is appended to the still-open "A". -/
theorem c1_nested_group_routing (cfg aeA aeB : Bool) (srcA srcB : Option SourceRef)
    (x y z : ReplElement) (hx : isOpenGroup x = false) (hy : isOpenGroup y = false)
    (hz : isOpenGroup z = false) :
    ((((((((ReplModel.mkEmpty cfg).startGroup "A" aeA srcA).addReplElement
        x).startGroup "B" aeB srcB).addReplElement y).endGroup).addReplElement
        z).endGroup).replElements =
      [.group (.groupId 0) "A" aeA srcA
        [x, .group (.groupId 1) "B" aeB srcB [y] true, z] true] := by
  have hB : endGroupElem (.group (.groupId 1) "B" aeB srcB [y] false) =
      .group (.groupId 1) "B" aeB srcB [y] true := by
    rw [endGroupElem_group, endChildren_notOpen y hy]
  have hA1 : endChildren [x, ReplElement.group (.groupId 1) "B" aeB srcB [y] false] =
      some [x, ReplElement.group (.groupId 1) "B" aeB srcB [y] true] := by
    rw [endChildren_cons,
      show endChildren [ReplElement.group (.groupId 1) "B" aeB srcB [y] false] =
        some [endGroupElem (.group (.groupId 1) "B" aeB srcB [y] false)] from rfl,
      hB]
    rfl
  have hA2 : endGroupElem (.group (.groupId 0) "A" aeA srcA
      [x, .group (.groupId 1) "B" aeB srcB [y] false] false) =
      .group (.groupId 0) "A" aeA srcA
        [x, .group (.groupId 1) "B" aeB srcB [y] true] false := by
    rw [endGroupElem_group, hA1]
  have hA3 : endChildren [x, ReplElement.group (.groupId 1) "B" aeB srcB [y] true, z] =
      none := by
    rw [endChildren_cons, endChildren_cons, endChildren_notOpen z hz]
    rfl
  have hA4 : endGroupElem (.group (.groupId 0) "A" aeA srcA
      [x, .group (.groupId 1) "B" aeB srcB [y] true, z] false) =
      .group (.groupId 0) "A" aeA srcA
        [x, .group (.groupId 1) "B" aeB srcB [y] true, z] true := by
    rw [endGroupElem_group, hA3]
  rw [show ((ReplModel.mkEmpty cfg).startGroup "A" aeA srcA).addReplElement x =
      c1State cfg [.group (.groupId 0) "A" aeA srcA [x] false] 2 1 from rfl]
  rw [show (c1State cfg [.group (.groupId 0) "A" aeA srcA [x] false] 2 1).startGroup
      "B" aeB srcB =
      c1State cfg [.group (.groupId 0) "A" aeA srcA
        (childrenAdd (.group (.groupId 1) "B" aeB srcB [] false) [x]) false] 3 2 from rfl]
  rw [childrenAdd_notOpen x hx]
  rw [show (c1State cfg [.group (.groupId 0) "A" aeA srcA
        [x, .group (.groupId 1) "B" aeB srcB [] false] false] 3 2).addReplElement y =
      c1State cfg [.group (.groupId 0) "A" aeA srcA
        (childrenAdd y [x, .group (.groupId 1) "B" aeB srcB [] false]) false] 4 2 from rfl]
  rw [childrenAdd_cons,
    show childrenAdd y [(.group (.groupId 1) "B" aeB srcB [] false : ReplElement)] =
      [.group (.groupId 1) "B" aeB srcB [y] false] from rfl]
  rw [show (c1State cfg [.group (.groupId 0) "A" aeA srcA
        [x, .group (.groupId 1) "B" aeB srcB [y] false] false] 4 2).endGroup =
      c1State cfg [endGroupElem (.group (.groupId 0) "A" aeA srcA
        [x, .group (.groupId 1) "B" aeB srcB [y] false] false)] 4 2 from rfl]
  rw [hA2]
  rw [show (c1State cfg [.group (.groupId 0) "A" aeA srcA
        [x, .group (.groupId 1) "B" aeB srcB [y] true] false] 4 2).addReplElement z =
      c1State cfg [.group (.groupId 0) "A" aeA srcA
        (childrenAdd z [x, .group (.groupId 1) "B" aeB srcB [y] true]) false] 5 2 from rfl]
  rw [childrenAdd_cons,
    show childrenAdd z [(.group (.groupId 1) "B" aeB srcB [y] true : ReplElement)] =
      [.group (.groupId 1) "B" aeB srcB [y] true, z] from rfl]
  rw [show (c1State cfg [.group (.groupId 0) "A" aeA srcA
        [x, .group (.groupId 1) "B" aeB srcB [y] true, z] false] 5 2).endGroup =
      c1State cfg [endGroupElem (.group (.groupId 0) "A" aeA srcA
        [x, .group (.groupId 1) "B" aeB srcB [y] true, z] false)] 5 2 from rfl]
  rw [hA4]
  rfl

/-- Witness for C1 at concrete leaf entries. -/
theorem c1_witness :
    ((((((((ReplModel.mkEmpty true).startGroup "A" false none).addReplElement
        (.evalInput (.uuid 0) ['x'])).startGroup "B" false none).addReplElement
        (.evalInput (.uuid 1) ['y'])).endGroup).addReplElement
        (.evalInput (.uuid 2) ['z'])).endGroup).replElements =
      [.group (.groupId 0) "A" false none
        [.evalInput (.uuid 0) ['x'],
         .group (.groupId 1) "B" false none [.evalInput (.uuid 1) ['y']] true,
         .evalInput (.uuid 2) ['z']] true] :=
  c1_nested_group_routing true false false none none
    (.evalInput (.uuid 0) ['x']) (.evalInput (.uuid 1) ['y']) (.evalInput (.uuid 2) ['z'])
    rfl rfl rfl

/-- Formalisation of the wording of C10: follow the chain of last
children descending through still-open groups from the given element and
set the closed flag of the innermost open group reached; on a non-group
the element is returned unchanged, and on a group whose chain holds no
still-open group the flag write hits an already-closed group (or the
group itself), so nothing changes either. -/
def specCloseInnermost : ReplElement → ReplElement
  | .group id n ae src ch ended =>
      match h : ch.getLast? with
      | some (.group cid cn cae csrc cch false) =>
          .group id n ae src
            (ch.dropLast ++ [specCloseInnermost (.group cid cn cae csrc cch false)]) ended
      | _ => .group id n ae src ch true
  | e => e
decreasing_by
  have h1 := List.sizeOf_lt_of_mem (List.mem_of_getLast?_eq_some h)
  simp only [ReplElement.group.sizeOf_spec] at h1 ⊢
  omega

/-- Characterization of the closing delegation helper through the last
element of the children list. -/
theorem endChildren_eq (ch : List ReplElement) :
    endChildren ch =
      match ch.getLast? with
      | some (.group cid cn cae csrc cch false) =>
          some (ch.dropLast ++ [endGroupElem (.group cid cn cae csrc cch false)])
      | _ => none := by
  induction ch with
  | nil => rfl
  | cons e rest ih =>
      cases rest with
      | nil =>
          cases e with
          | group id n ae src ch2 ended => cases ended <;> rfl
          | simple s id v sev src cnt => rfl
          | rawObject id n v src an => rfl
          | evalInput id v => rfl
          | evalResult id a => rfl
      | cons f rest2 =>
          rw [endChildren_cons, ih, List.getLast?_cons_cons, List.dropLast_cons₂]
          cases hg : (f :: rest2).getLast? with
          | none => rfl
          | some g =>
              cases g with
              | group cid cn cae csrc cch cended => cases cended <;> rfl
              | simple s id v sev src cnt => rfl
              | rawObject id n v src an => rfl
              | evalInput id v => rfl
              | evalResult id a => rfl

/-- Unfolding of `specCloseInnermost` on a group whose last child is not
a still-open group: the flag of the group itself is set. -/
theorem spec_notOpenLast (id : ElemId) (n : String) (ae : Bool) (src : Option SourceRef)
    (ch : List ReplElement) (ended : Bool) (h : lastIsOpenGroup ch = false) :
    specCloseInnermost (.group id n ae src ch ended) = .group id n ae src ch true := by
  rw [specCloseInnermost.eq_1]
  split
  · next cid cn cae csrc cch heq =>
      rw [lastIsOpenGroup, heq] at h
      simp [isOpenGroup] at h
  · rfl

/-- Unfolding of `specCloseInnermost` on a group whose last child is a
still-open group: descend into that child. -/
theorem spec_openLast (id : ElemId) (n : String) (ae : Bool) (src : Option SourceRef)
    (ch : List ReplElement) (ended : Bool) (cid : ElemId) (cn : String) (cae : Bool)
    (csrc : Option SourceRef) (cch : List ReplElement)
    (h : ch.getLast? = some (.group cid cn cae csrc cch false)) :
    specCloseInnermost (.group id n ae src ch ended) =
      .group id n ae src
        (ch.dropLast ++ [specCloseInnermost (.group cid cn cae csrc cch false)]) ended := by
  rw [specCloseInnermost.eq_1]
  split
  · next cid2 cn2 cae2 csrc2 cch2 heq =>
      rw [h, Option.some.injEq, ReplElement.group.injEq] at heq
      obtain ⟨h1, h2, h3, h4, h5, h6⟩ := heq
      subst h1; subst h2; subst h3; subst h4; subst h5
      rfl
  · next hcontra =>
      exact absurd h (by intro hh; exact hcontra _ _ _ _ _ hh)

/-- Unfolding of `specCloseInnermost` on a non-group element. -/
theorem spec_nonGroup (e : ReplElement) (h : isGroupE e = false) :
    specCloseInnermost e = e := by
  cases e with
  | group id n ae src ch ended => simp [isGroupE] at h
  | simple s id v sev src cnt =>
      exact specCloseInnermost.eq_2 _ (fun id n ae src ch ended hEq => by cases hEq)
  | rawObject id n v src an =>
      exact specCloseInnermost.eq_2 _ (fun id n ae src ch ended hEq => by cases hEq)
  | evalInput id v =>
      exact specCloseInnermost.eq_2 _ (fun id n ae src ch ended hEq => by cases hEq)
  | evalResult id a =>
      exact specCloseInnermost.eq_2 _ (fun id n ae src ch ended hEq => by cases hEq)

/-- The source's recursive `end()` computes exactly the closing of the
innermost open group along the last-child chain. -/
theorem endGroupElem_eq_spec (e : ReplElement) : endGroupElem e = specCloseInnermost e := by
  cases e with
  | group id n ae src ch ended =>
      rw [endGroupElem_group, endChildren_eq]
      cases hg : ch.getLast? with
      | none =>
          rw [spec_notOpenLast _ _ _ _ _ _ (by rw [lastIsOpenGroup, hg])]
      | some g =>
          cases g with
          | group cid cn cae csrc cch cended =>
              cases cended with
              | false =>
                  show ReplElement.group id n ae src
                      (ch.dropLast ++ [endGroupElem (.group cid cn cae csrc cch false)])
                      ended = _
                  rw [spec_openLast _ _ _ _ _ _ _ _ _ _ _ hg,
                    endGroupElem_eq_spec (.group cid cn cae csrc cch false)]
              | true =>
                  rw [spec_notOpenLast _ _ _ _ _ _ (by rw [lastIsOpenGroup, hg]; rfl)]
          | simple s id2 v sev src2 cnt =>
              rw [spec_notOpenLast _ _ _ _ _ _ (by rw [lastIsOpenGroup, hg]; rfl)]
          | rawObject id2 n2 v src2 an =>
              rw [spec_notOpenLast _ _ _ _ _ _ (by rw [lastIsOpenGroup, hg]; rfl)]
          | evalInput id2 v =>
              rw [spec_notOpenLast _ _ _ _ _ _ (by rw [lastIsOpenGroup, hg]; rfl)]
          | evalResult id2 a =>
              rw [spec_notOpenLast _ _ _ _ _ _ (by rw [lastIsOpenGroup, hg]; rfl)]
  | simple s id v sev src cnt =>
      rw [spec_nonGroup (.simple s id v sev src cnt) rfl]; rfl
  | rawObject id n v src an =>
      rw [spec_nonGroup (.rawObject id n v src an) rfl]; rfl
  | evalInput id v =>
      rw [spec_nonGroup (.evalInput id v) rfl]; rfl
  | evalResult id a =>
      rw [spec_nonGroup (.evalResult id a) rfl]; rfl
decreasing_by
  have h1 := List.sizeOf_lt_of_mem (List.mem_of_getLast?_eq_some hg)
  simp only [ReplElement.group.sizeOf_spec] at h1 ⊢
  omega

/-- Case analysis of `ReplModel.endGroup`: either a complete no-op (the
store is empty or its last element is not a group), or the last top-level
element is a group and only that slot is replaced by the result of its
`end()`. -/
theorem endGroup_cases (m : ReplModel) :
    (m.endGroup = m ∧
      (m.replElements = [] ∨
        ∃ e, m.replElements.getLast? = some e ∧ isGroupE e = false)) ∨
    ∃ e, m.replElements.getLast? = some e ∧ isGroupE e = true ∧
      m.endGroup = { m with replElements := m.replElements.dropLast ++ [endGroupElem e] } := by
  cases hg : m.replElements.getLast? with
  | none =>
      exact Or.inl ⟨by simp [ReplModel.endGroup, hg],
        Or.inl (List.getLast?_eq_none_iff.mp hg)⟩
  | some e =>
      cases hge : isGroupE e with
      | true => exact Or.inr ⟨e, rfl, hge, by simp [ReplModel.endGroup, hg, hge]⟩
      | false =>
          exact Or.inl ⟨by simp [ReplModel.endGroup, hg, hge], Or.inr ⟨e, rfl, hge⟩⟩

/-- C10: `endGroup()` never fires the store-level change notification and
touches no store field other than the element array; it changes at most
the last top-level slot, where its only possible effect is closing the
innermost open group along the last-child chain (`specCloseInnermost`);
when the last top-level entry is not a group, or is a closed group whose
last child is not a still-open group, the whole store is left unchanged. -/
theorem c10_endGroup_frame (m : ReplModel) :
    (m.endGroup = { m with replElements := m.endGroup.replElements }) ∧
    m.endGroup.replElements.dropLast = m.replElements.dropLast ∧
    m.endGroup.replElements.length = m.replElements.length ∧
    (∀ e, m.replElements.getLast? = some e →
      m.endGroup.replElements.getLast? = some (specCloseInnermost e)) ∧
    (∀ e, m.replElements.getLast? = some e → isGroupE e = false → m.endGroup = m) ∧
    (∀ id n ae src ch, m.replElements.getLast? = some (.group id n ae src ch true) →
      lastIsOpenGroup ch = false → m.endGroup = m) := by
  rcases endGroup_cases m with ⟨hnoop, hwhy⟩ | ⟨g, hg, hge, heq⟩
  · refine ⟨by rw [hnoop], by rw [hnoop], by rw [hnoop], ?_, ?_, ?_⟩
    · intro e he
      rw [hnoop, he]
      rcases hwhy with hnil | ⟨e2, he2, hng⟩
      · rw [hnil] at he; cases he
      · rw [he] at he2
        cases he2
        rw [spec_nonGroup e hng]
    · intro e he hng
      exact hnoop
    · intro id n ae src ch hlast hopen
      exact hnoop
  · have hne : m.replElements ≠ [] := by
      intro h0
      rw [h0] at hg
      cases hg
    refine ⟨by rw [heq], ?_, ?_, ?_, ?_, ?_⟩
    · rw [heq]
      exact List.dropLast_concat
    · rw [heq]
      simp only [List.length_append, List.length_dropLast, List.length_cons,
        List.length_nil]
      have := List.length_pos.mpr hne
      omega
    · intro e he
      rw [he] at hg
      cases hg
      rw [heq]
      simp only [List.getLast?_concat, endGroupElem_eq_spec]
    · intro e he hng
      rw [he] at hg
      cases hg
      rw [hge] at hng
      cases hng
    · intro id n ae src ch hlast hopen
      rw [hlast] at hg
      cases hg
      obtain ⟨ys, hys⟩ := List.getLast?_eq_some_iff.mp hlast
      have hclosed : endGroupElem (.group id n ae src ch true) =
          .group id n ae src ch true := by
        rw [endGroupElem_eq_spec, spec_notOpenLast _ _ _ _ _ _ hopen]
      rw [heq, hclosed, hys, List.dropLast_concat, ← hys]

/-- Witness for C10: on a store whose last element is a plain text entry,
and on a store whose last element is an already-closed group with no open
child, `endGroup` changes nothing. -/
theorem c10_witness :
    ((ReplModel.mkEmpty true).pushNewSimple 0 ['a'] .info none).endGroup =
      (ReplModel.mkEmpty true).pushNewSimple 0 ['a'] .info none ∧
    (((ReplModel.mkEmpty true).startGroup "A" false none).endGroup).endGroup =
      ((ReplModel.mkEmpty true).startGroup "A" false none).endGroup :=
  ⟨(c10_endGroup_frame ((ReplModel.mkEmpty true).pushNewSimple 0 ['a'] .info
        none)).2.2.2.2.1 (.simple 0 (.top 0) ['a'] .info none 1) rfl rfl,
   (c10_endGroup_frame (((ReplModel.mkEmpty true).startGroup "A" false
        none).endGroup)).2.2.2.2.2 (.groupId 0) "A" false none [] rfl rfl⟩

/-- The suffix of the last `k` entries, as produced by
`splice(0, length - k)`. -/
def takeLast (k : Nat) (l : List α) : List α := l.drop (l.length - k)

/-- A list within the bound is kept whole. -/
theorem takeLast_of_le (k : Nat) (l : List α) (h : l.length ≤ k) : takeLast k l = l := by
  unfold takeLast
  rw [Nat.sub_eq_zero_of_le h, List.drop_zero]

/-- Length of the retained suffix. -/
theorem length_takeLast (k : Nat) (l : List α) :
    (takeLast k l).length = min k l.length := by
  unfold takeLast
  rw [List.length_drop]
  omega

/-- Retention commutes with later appends: keeping the last `k` of an
already-retained list extended by `y` keeps the last `k` of the whole. -/
theorem takeLast_append_takeLast (k : Nat) (x y : List α) :
    takeLast k (takeLast k x ++ y) = takeLast k (x ++ y) := by
  rcases Nat.le_total x.length k with h | h
  · rw [takeLast_of_le k x h]
  · unfold takeLast
    rw [List.length_append, List.length_drop, List.length_append,
      List.drop_append_eq_append_drop, List.drop_append_eq_append_drop, List.drop_drop]
    congr 2
    · omega
    · rw [List.length_drop]
      omega

/-- The retained suffix keeps the last element. -/
theorem getLast?_takeLast (k : Nat) (hk : 0 < k) (l : List α) :
    (takeLast k l).getLast? = l.getLast? := by
  rcases eq_or_ne l [] with rfl | hne0
  · rw [takeLast, List.drop_nil]
  · unfold takeLast
    conv_rhs => rw [← List.take_append_drop (l.length - k) l]
    rw [List.getLast?_append]
    have hne : l.drop (l.length - k) ≠ [] := by
      rw [Ne, List.drop_eq_nil_iff]
      have : 0 < l.length := List.length_pos.mpr hne0
      omega
    cases hd : (l.drop (l.length - k)).getLast? with
    | none => exact absurd (List.getLast?_eq_none_iff.mp hd) hne
    | some b => rfl

/-- The elements after a top-level push are the retained suffix of the
push. -/
theorem pushTop_elements (m : ReplModel) (e : ReplElement) :
    (m.pushTop e).replElements = takeLast MAX_REPL_LENGTH (m.replElements ++ [e]) := by
  simp only [ReplModel.pushTop]
  split
  · rfl
  · next h =>
      rw [takeLast_of_le _ _ (Nat.le_of_not_lt h)]

/-- When the last top-level element is not a still-open group,
`addReplElement` takes the push branch. -/
theorem addReplElement_push (m : ReplModel) (e : ReplElement)
    (h : lastIsOpenGroup m.replElements = false) :
    m.addReplElement e = m.pushTop e := by
  cases hg : m.replElements.getLast? with
  | none => simp [ReplModel.addReplElement, hg]
  | some last =>
      have ho : isOpenGroup last = false := by
        simp only [lastIsOpenGroup, hg] at h
        exact h
      simp [ReplModel.addReplElement, hg, ho]

/-- `addReplElement` fires the store-level notification exactly once, in
both the delegation branch and the push branch. -/
theorem addReplElement_fire (m : ReplModel) (e : ReplElement) :
    (m.addReplElement e).fireCount = m.fireCount + 1 := by
  cases hg : m.replElements.getLast? with
  | none => simp [ReplModel.addReplElement, hg, ReplModel.pushTop]
  | some last =>
      cases ho : isOpenGroup last with
      | true => simp [ReplModel.addReplElement, hg, ho]
      | false => simp [ReplModel.addReplElement, hg, ho, ReplModel.pushTop]

/-- Folding top-level inserts of non-open-group entries keeps exactly the
last `MAX_REPL_LENGTH` entries of the appended sequence and fires once
per insert. -/
theorem addAll_noGroups (es : List ReplElement) : ∀ (m : ReplModel),
    lastIsOpenGroup m.replElements = false →
    (∀ e ∈ es, isOpenGroup e = false) →
    m.replElements.length ≤ MAX_REPL_LENGTH →
    ((es.foldl ReplModel.addReplElement m).replElements =
        takeLast MAX_REPL_LENGTH (m.replElements ++ es) ∧
      (es.foldl ReplModel.addReplElement m).fireCount = m.fireCount + es.length) := by
  induction es with
  | nil =>
      intro m h1 h2 h3
      exact ⟨by rw [List.foldl_nil, List.append_nil, takeLast_of_le _ _ h3], by simp⟩
  | cons e rest ih =>
      intro m h1 h2 h3
      rw [List.foldl_cons, addReplElement_push m e h1]
      have hel : (m.pushTop e).replElements = takeLast MAX_REPL_LENGTH (m.replElements ++ [e]) :=
        pushTop_elements m e
      have hlast : lastIsOpenGroup (m.pushTop e).replElements = false := by
        rw [lastIsOpenGroup, hel, getLast?_takeLast _ (by rw [MAX_REPL_LENGTH]; omega) _,
          List.getLast?_concat]
        exact h2 e (List.mem_cons_self e rest)
      have hlen : (m.pushTop e).replElements.length ≤ MAX_REPL_LENGTH := by
        rw [hel, length_takeLast]
        omega
      obtain ⟨ihel, ihfire⟩ := ih (m.pushTop e) hlast
        (fun x hx => h2 x (List.mem_cons_of_mem e hx)) hlen
      constructor
      · rw [ihel, hel, takeLast_append_takeLast, List.append_assoc]
        rfl
      · rw [ihfire]
        have : (m.pushTop e).fireCount = m.fireCount + 1 := by
          simp [ReplModel.pushTop]
        rw [this, List.length_cons]
        omega

/-- C2: every top-level insert leaves at most 10,000 top-level entries,
evicting from the front (the result is exactly the retained suffix of the
push), and fires the store-level notification exactly once regardless of
eviction; inserting 10,001 top-level entries into an empty store leaves
exactly the most recent 10,000 in their original relative order. -/
theorem c2_retention_bound (collapse : Bool) (es : List ReplElement)
    (hlen : es.length = 10001) (hng : ∀ e ∈ es, isOpenGroup e = false) :
    ((es.foldl ReplModel.addReplElement (ReplModel.mkEmpty collapse)).replElements =
        es.drop 1 ∧
      (es.foldl ReplModel.addReplElement (ReplModel.mkEmpty collapse)).replElements.length =
        10000 ∧
      (es.foldl ReplModel.addReplElement (ReplModel.mkEmpty collapse)).fireCount = 10001) ∧
    (∀ (m : ReplModel) (e : ReplElement),
      (m.addReplElement e).fireCount = m.fireCount + 1) ∧
    (∀ (m : ReplModel) (e : ReplElement), lastIsOpenGroup m.replElements = false →
      (m.addReplElement e).replElements.length ≤ MAX_REPL_LENGTH ∧
      (m.addReplElement e).replElements =
        (m.replElements ++ [e]).drop
          ((m.replElements ++ [e]).length - MAX_REPL_LENGTH)) := by
  refine ⟨?_, addReplElement_fire, ?_⟩
  · obtain ⟨hel, hfire⟩ := addAll_noGroups es (ReplModel.mkEmpty collapse) rfl hng
      (by rw [ReplModel.mkEmpty]; exact Nat.zero_le _)
    have hnil : (ReplModel.mkEmpty collapse).replElements = [] := rfl
    rw [hnil, List.nil_append] at hel
    have hdrop : takeLast MAX_REPL_LENGTH es = es.drop 1 := by
      rw [takeLast, hlen, MAX_REPL_LENGTH]
    refine ⟨by rw [hel, hdrop], by rw [hel, hdrop, List.length_drop, hlen], ?_⟩
    rw [hfire, hlen]
    rfl
  · intro m e h
    rw [addReplElement_push m e h, pushTop_elements]
    constructor
    · rw [length_takeLast]
      omega
    · rfl

/-- Witness for C2: 10,001 evaluation-input entries inserted into the
empty store leave exactly the last 10,000 of them, with 10,001 firings. -/
theorem c2_witness :
    ((List.replicate 10001 (ReplElement.evalInput (.uuid 0) [])).foldl
        ReplModel.addReplElement (ReplModel.mkEmpty true)).replElements =
      (List.replicate 10001 (ReplElement.evalInput (.uuid 0) [])).drop 1 ∧
    ((List.replicate 10001 (ReplElement.evalInput (.uuid 0) [])).foldl
        ReplModel.addReplElement (ReplModel.mkEmpty true)).replElements.length = 10000 ∧
    ((List.replicate 10001 (ReplElement.evalInput (.uuid 0) [])).foldl
        ReplModel.addReplElement (ReplModel.mkEmpty true)).fireCount = 10001 :=
  (c2_retention_bound true (List.replicate 10001 (ReplElement.evalInput (.uuid 0) []))
    (by rw [List.length_replicate])
    (fun e he => by rw [List.eq_of_mem_replicate he]; rfl)).1

/-- Source equality is reflexive. -/
theorem areSourcesEqual_refl (a : Option SourceRef) : areSourcesEqual a a = true := by
  cases a with
  | none => rfl
  | some x => simp [areSourcesEqual]

/-- Clearing always leaves an empty element array and touches neither the
configuration flag nor the id counter. -/
theorem clear_fields (m : ReplModel) :
    (m.removeReplExpressions).replElements = [] ∧
    (m.removeReplExpressions).collapseIdenticalLines = m.collapseIdenticalLines ∧
    (m.removeReplExpressions).idCounter = m.idCounter := by
  by_cases h0 : 0 < m.replElements.length
  · simp [ReplModel.removeReplExpressions, h0]
  · have hnil : m.replElements = [] := by
      cases hc : m.replElements with
      | nil => rfl
      | cons a r => rw [hc] at h0; simp at h0
    simp [ReplModel.removeReplExpressions, h0, hnil]

/-- The coalescing policy on an empty store creates a fresh element. -/
theorem appendSimple_nil (m : ReplModel) (s : Nat) (data : List Char) (sev : Severity)
    (src : Option SourceRef) (h : m.replElements = []) :
    m.appendSimple s data sev src = m.pushNewSimple s data sev src := by
  have hg : m.replElements.getLast? = none := by rw [h]; rfl
  simp [ReplModel.appendSimple, hg]

/-- The coalescing policy never merges across differing severities. -/
theorem appendSimple_diffSev (m : ReplModel) (s : Nat) (data : List Char) (sev : Severity)
    (src : Option SourceRef) (ps : Nat) (pid : ElemId) (pval : List Char) (psev : Severity)
    (psrc : Option SourceRef) (pcount : Nat)
    (hg : m.replElements.getLast? = some (.simple ps pid pval psev psrc pcount))
    (hsev : psev ≠ sev) :
    m.appendSimple s data sev src = m.pushNewSimple s data sev src := by
  simp [ReplModel.appendSimple, hg, hsev]

/-- Pushing a fresh element into an empty store. -/
theorem pushNewSimple_nil (m : ReplModel) (s : Nat) (data : List Char) (sev : Severity)
    (src : Option SourceRef) (h : m.replElements = []) :
    m.pushNewSimple s data sev src =
      { m with replElements := [.simple s (.top m.idCounter) data sev src 1],
               idCounter := m.idCounter + 1, fireCount := m.fireCount + 1 } := by
  have hg : m.replElements.getLast? = none := by rw [h]; rfl
  simp [ReplModel.pushNewSimple, ReplModel.addReplElement, hg, ReplModel.pushTop, h,
    MAX_REPL_LENGTH]

/-- Pushing a fresh element into a one-element store whose element is not
an open group. -/
theorem pushNewSimple_one (m : ReplModel) (s : Nat) (data : List Char) (sev : Severity)
    (src : Option SourceRef) (e0 : ReplElement) (h : m.replElements = [e0])
    (hno : isOpenGroup e0 = false) :
    m.pushNewSimple s data sev src =
      { m with replElements := [e0, .simple s (.top m.idCounter) data sev src 1],
               idCounter := m.idCounter + 1, fireCount := m.fireCount + 1 } := by
  have hg : m.replElements.getLast? = some e0 := by rw [h]; rfl
  simp [ReplModel.pushNewSimple, ReplModel.addReplElement, hg, hno, ReplModel.pushTop, h,
    MAX_REPL_LENGTH]

/-- C3: an append whose text contains the clear-screen sequence first
clears the store, then appends the synthetic "Console was cleared" notice
with severity Ignore, then applies the coalescing policy only to the
substring after the last occurrence of the sequence; provided the call's
severity is not Ignore, the store afterwards holds exactly the notice
followed by the remainder entry. -/
theorem c3_clear_screen (m : ReplModel) (s : Nat) (data : List Char) (sev : Severity)
    (src : Option SourceRef) (h : hasSeq clearSeq data = true) (hsev : sev ≠ .ignore) :
    m.appendToRepl s data sev src =
      ((m.removeReplExpressions).appendSimple s consoleClearedMsg .ignore
        none).appendSimple s (afterLastClear data) sev src ∧
    (m.appendToRepl s data sev src).replElements =
      [.simple s (.top m.idCounter) consoleClearedMsg .ignore none 1,
       .simple s (.top (m.idCounter + 1)) (afterLastClear data) sev src 1] := by
  have hdecomp : m.appendToRepl s data sev src =
      ((m.removeReplExpressions).appendSimple s consoleClearedMsg .ignore
        none).appendSimple s (afterLastClear data) sev src := by
    unfold ReplModel.appendToRepl
    rw [if_pos h]
  refine ⟨hdecomp, ?_⟩
  rw [hdecomp]
  obtain ⟨hcl, hccfg, hcid⟩ := clear_fields m
  rw [appendSimple_nil _ _ _ _ _ hcl, pushNewSimple_nil _ _ _ _ _ hcl]
  have h2 := appendSimple_diffSev
    { m.removeReplExpressions with
      replElements := [ReplElement.simple s (.top m.removeReplExpressions.idCounter)
        consoleClearedMsg .ignore none 1],
      idCounter := m.removeReplExpressions.idCounter + 1,
      fireCount := m.removeReplExpressions.fireCount + 1 }
    s (afterLastClear data) sev src s (.top m.removeReplExpressions.idCounter)
    consoleClearedMsg .ignore none 1 rfl (fun hc => hsev hc.symm)
  rw [h2]
  have h3 := pushNewSimple_one
    { m.removeReplExpressions with
      replElements := [ReplElement.simple s (.top m.removeReplExpressions.idCounter)
        consoleClearedMsg .ignore none 1],
      idCounter := m.removeReplExpressions.idCounter + 1,
      fireCount := m.removeReplExpressions.fireCount + 1 }
    s (afterLastClear data) sev src
    (.simple s (.top m.removeReplExpressions.idCounter) consoleClearedMsg .ignore none 1)
    rfl rfl
  rw [h3, hcid]

/-- Counterexample to C3 as stated: when the appended severity is Ignore,
the remainder coalesces into the synthetic notice (severity match plus
streaming concatenation), so the store ends with a single merged entry
whose text is not the cleared notice — not the notice followed by the
remainder. -/
theorem c3_counterexample :
    ((ReplModel.mkEmpty true).appendToRepl 0 "\x1b[2JX".toList .ignore none).replElements =
      [.simple 0 (.top 1) "Console was clearedX".toList .ignore none 1] ∧
    ((ReplModel.mkEmpty true).appendToRepl 0 "\x1b[2JX".toList .ignore
        none).replElements.length = 1 ∧
    "Console was clearedX".toList ≠ consoleClearedMsg :=
  ⟨rfl, rfl, by decide⟩

/-- Witness for C3 on concrete input with two clear sequences. -/
theorem c3_witness :
    ((ReplModel.mkEmpty true).appendToRepl 0 "a\x1b[2Jb\x1b[2Jcd".toList .info
        none).replElements =
      [.simple 0 (.top 0) consoleClearedMsg .ignore none 1,
       .simple 0 (.top 1) "cd".toList .info none 1] := by
  have h := (c3_clear_screen (ReplModel.mkEmpty true) 0 "a\x1b[2Jb\x1b[2Jcd".toList .info
    none rfl (by decide)).2
  rw [show afterLastClear "a\x1b[2Jb\x1b[2Jcd".toList = "cd".toList from rfl] at h
  exact h

/-- Characterization of `areSourcesEqual`: equal iff both locators are
absent, or both are present and agree on column, line number and uri. -/
theorem areSourcesEqual_iff (a b : Option SourceRef) :
    areSourcesEqual a b = true ↔
      ((a = none ∧ b = none) ∨
        ∃ x y, a = some x ∧ b = some y ∧ x.column = y.column ∧
          x.lineNumber = y.lineNumber ∧ x.uri = y.uri) := by
  cases a with
  | none =>
      cases b with
      | none => simp [areSourcesEqual]
      | some y => simp [areSourcesEqual]
  | some x =>
      cases b with
      | none => simp [areSourcesEqual]
      | some y => simp [areSourcesEqual, Bool.and_eq_true, beq_iff_eq, and_assoc]

/-- Initial-store condition under which the first append of C4's call
sequence creates a fresh top-level entry: the last top-level element, if
any, is neither a still-open group nor a TextOutput of the same severity. -/
def lastNoCoalesce (m : ReplModel) (sev : Severity) : Prop :=
  match m.replElements.getLast? with
  | some (.simple _ _ _ psev _ _) => psev ≠ sev
  | some e => isOpenGroup e = false
  | none => True

/-- A store satisfying `lastNoCoalesce` does not end in an open group. -/
theorem lastNoCoalesce_notOpen (m : ReplModel) (sev : Severity)
    (h : lastNoCoalesce m sev) : lastIsOpenGroup m.replElements = false := by
  unfold lastNoCoalesce at h
  unfold lastIsOpenGroup
  cases hg : m.replElements.getLast? with
  | none => rfl
  | some e =>
      rw [hg] at h
      cases e with
      | simple s id v sev2 src cnt => rfl
      | rawObject id n v src an => rfl
      | evalInput id v => rfl
      | evalResult id a2 => rfl
      | group id n ae src ch ended => exact h

/-- The coalescing policy falls through to a fresh element when the last
element is not a `SimpleReplElement`. -/
theorem appendSimple_other (m : ReplModel) (s : Nat) (data : List Char) (sev : Severity)
    (src : Option SourceRef) (e0 : ReplElement)
    (hg : m.replElements.getLast? = some e0)
    (h : ∀ ps pid pval psev psrc pcount, e0 ≠ .simple ps pid pval psev psrc pcount) :
    m.appendSimple s data sev src = m.pushNewSimple s data sev src := by
  cases e0 with
  | simple ps pid pval psev psrc pcount => exact absurd rfl (h ps pid pval psev psrc pcount)
  | rawObject id n v src2 an => simp [ReplModel.appendSimple, hg]
  | evalInput id v => simp [ReplModel.appendSimple, hg]
  | evalResult id a2 => simp [ReplModel.appendSimple, hg]
  | group id n ae src2 ch ended => simp [ReplModel.appendSimple, hg]

/-- Pushing a fresh element when no open group ends the store and the
bound is not hit: plain append at the end. -/
theorem pushNewSimple_noEvict (m : ReplModel) (s : Nat) (data : List Char) (sev : Severity)
    (src : Option SourceRef) (hopen : lastIsOpenGroup m.replElements = false)
    (hlen : m.replElements.length < MAX_REPL_LENGTH) :
    m.pushNewSimple s data sev src =
      { m with
        replElements := m.replElements ++ [.simple s (.top m.idCounter) data sev src 1],
        idCounter := m.idCounter + 1, fireCount := m.fireCount + 1 } := by
  simp only [MAX_REPL_LENGTH] at hlen
  rw [ReplModel.pushNewSimple,
    addReplElement_push { m with idCounter := m.idCounter + 1 }
      (ReplElement.simple s (.top m.idCounter) data sev src 1) hopen]
  simp only [ReplModel.pushTop, List.length_append, List.length_cons, List.length_nil,
    MAX_REPL_LENGTH]
  rw [if_neg (by omega)]

/-- The first append of C4's sequence pushes exactly one fresh entry with
count 1 at the end of the top level. -/
theorem append_first_push (m : ReplModel) (s : Nat) (data : List Char) (sev : Severity)
    (src : Option SourceRef) (hclear : hasSeq clearSeq data = false)
    (hlast : lastNoCoalesce m sev) (hlen : m.replElements.length < MAX_REPL_LENGTH) :
    m.appendToRepl s data sev src =
      { m with
        replElements := m.replElements ++ [.simple s (.top m.idCounter) data sev src 1],
        idCounter := m.idCounter + 1, fireCount := m.fireCount + 1 } := by
  have hopen := lastNoCoalesce_notOpen m sev hlast
  unfold ReplModel.appendToRepl
  rw [if_neg (by rw [hclear]; exact Bool.false_ne_true)]
  cases hg : m.replElements.getLast? with
  | none =>
      rw [appendSimple_nil _ _ _ _ _ (List.getLast?_eq_none_iff.mp hg)]
      exact pushNewSimple_noEvict m s data sev src hopen hlen
  | some e =>
      unfold lastNoCoalesce at hlast
      rw [hg] at hlast
      cases e with
      | simple ps pid pval psev psrc pcount =>
          rw [appendSimple_diffSev _ _ _ _ _ ps pid pval psev psrc pcount hg hlast]
          exact pushNewSimple_noEvict m s data sev src hopen hlen
      | rawObject id n v src2 an =>
          rw [appendSimple_other _ _ _ _ _ _ hg (fun _ _ _ _ _ _ h => by cases h)]
          exact pushNewSimple_noEvict m s data sev src hopen hlen
      | evalInput id v =>
          rw [appendSimple_other _ _ _ _ _ _ hg (fun _ _ _ _ _ _ h => by cases h)]
          exact pushNewSimple_noEvict m s data sev src hopen hlen
      | evalResult id a2 =>
          rw [appendSimple_other _ _ _ _ _ _ hg (fun _ _ _ _ _ _ h => by cases h)]
          exact pushNewSimple_noEvict m s data sev src hopen hlen
      | group id n ae src2 ch ended =>
          rw [appendSimple_other _ _ _ _ _ _ hg (fun _ _ _ _ _ _ h => by cases h)]
          exact pushNewSimple_noEvict m s data sev src hopen hlen

/-- A repeated identical append increments the count of the matching last
entry, creating nothing, firing only the count emitter. -/
theorem append_collapse_step (m : ReplModel) (s s2 : Nat) (data : List Char)
    (sev : Severity) (src : Option SourceRef) (l : List ReplElement) (pid : ElemId)
    (k : Nat) (hclear : hasSeq clearSeq data = false)
    (hcfg : m.collapseIdenticalLines = true)
    (hel : m.replElements = l ++ [.simple s2 pid data sev src k]) :
    m.appendToRepl s data sev src =
      { m with replElements := l ++ [.simple s2 pid data sev src (k + 1)],
               countFireCount := m.countFireCount + 1 } := by
  unfold ReplModel.appendToRepl
  rw [if_neg (by rw [hclear]; exact Bool.false_ne_true)]
  have hg : m.replElements.getLast? = some (.simple s2 pid data sev src k) := by
    rw [hel]
    exact List.getLast?_concat _
  simp only [ReplModel.appendSimple, hg]
  rw [if_pos trivial, if_pos ⟨trivial, areSourcesEqual_refl src, hcfg⟩, hel,
    List.dropLast_concat]

/-- Iterating identical appends on a store that ends with a matching
entry only bumps that entry's count and the count emitter. -/
theorem append_iterate (s s2 : Nat) (data : List Char) (sev : Severity)
    (src : Option SourceRef) (l : List ReplElement) (pid : ElemId)
    (hclear : hasSeq clearSeq data = false) (j : Nat) : ∀ (m : ReplModel) (k : Nat),
    m.collapseIdenticalLines = true →
    m.replElements = l ++ [.simple s2 pid data sev src k] →
    (((fun mm => ReplModel.appendToRepl mm s data sev src)^[j] m).replElements =
        l ++ [.simple s2 pid data sev src (k + j)] ∧
      ((fun mm => ReplModel.appendToRepl mm s data sev src)^[j] m).fireCount = m.fireCount ∧
      ((fun mm => ReplModel.appendToRepl mm s data sev src)^[j] m).countFireCount =
        m.countFireCount + j ∧
      ((fun mm => ReplModel.appendToRepl mm s data sev src)^[j] m).idCounter =
        m.idCounter) := by
  induction j with
  | zero =>
      intro m k hcfg hel
      refine ⟨?_, rfl, rfl, rfl⟩
      show m.replElements = l ++ [ReplElement.simple s2 pid data sev src (k + 0)]
      rw [hel, Nat.add_zero]
  | succ j ih =>
      intro m k hcfg hel
      have hstep := append_collapse_step m s s2 data sev src l pid k hclear hcfg hel
      rw [Function.iterate_succ_apply, hstep]
      obtain ⟨h1, h2, h3, h4⟩ := ih
        { m with replElements := l ++ [ReplElement.simple s2 pid data sev src (k + 1)],
                 countFireCount := m.countFireCount + 1 }
        (k + 1) hcfg rfl
      refine ⟨?_, ?_, ?_, ?_⟩
      · rw [show k + (j + 1) = k + 1 + j from by omega, h1]
      · rw [h2]
      · rw [h3]
        show m.countFireCount + 1 + j = m.countFireCount + (j + 1)
        omega
      · rw [h4]

/-- C4 (amended): for n identical appends (same text, severity, source)
with "collapse identical lines" enabled — starting from a store holding
fewer than 10,000 top-level entries whose last entry, if any, is neither a
still-open group nor a TextOutput of the same severity, and with text not
containing the clear-screen sequence — the top level grows by exactly one
entry, placed at the end with repeat count n; the store-level
notification fires exactly once in total (for the first call) while the
coalesced calls fire only the count emitter (n - 1 times); and two source
locators are equal iff both are absent or both present with matching
column, line number and uri string. -/
theorem c4_collapse_identical (m : ReplModel) (s : Nat) (data : List Char)
    (sev : Severity) (src : Option SourceRef) (n : Nat) (hn : 1 ≤ n)
    (hcfg : m.collapseIdenticalLines = true) (hclear : hasSeq clearSeq data = false)
    (hlen : m.replElements.length < MAX_REPL_LENGTH) (hlast : lastNoCoalesce m sev) :
    ((fun mm => ReplModel.appendToRepl mm s data sev src)^[n] m).replElements =
        m.replElements ++ [.simple s (.top m.idCounter) data sev src n] ∧
    ((fun mm => ReplModel.appendToRepl mm s data sev src)^[n] m).replElements.length =
        m.replElements.length + 1 ∧
    ((fun mm => ReplModel.appendToRepl mm s data sev src)^[n] m).fireCount =
        m.fireCount + 1 ∧
    ((fun mm => ReplModel.appendToRepl mm s data sev src)^[n] m).countFireCount =
        m.countFireCount + (n - 1) ∧
    (∀ a b, areSourcesEqual a b = true ↔
      ((a = none ∧ b = none) ∨
        ∃ x y, a = some x ∧ b = some y ∧ x.column = y.column ∧
          x.lineNumber = y.lineNumber ∧ x.uri = y.uri)) := by
  obtain ⟨j, rfl⟩ : ∃ j, n = j + 1 := ⟨n - 1, by omega⟩
  have hstep := append_first_push m s data sev src hclear hlast hlen
  rw [Function.iterate_succ_apply, hstep]
  obtain ⟨h1, h2, h3, h4⟩ := append_iterate s s data sev src m.replElements
    (.top m.idCounter) hclear j
    { m with replElements := m.replElements ++ [.simple s (.top m.idCounter) data sev src 1],
             idCounter := m.idCounter + 1, fireCount := m.fireCount + 1 }
    1 hcfg rfl
  refine ⟨?_, ?_, ?_, ?_, areSourcesEqual_iff⟩
  · rw [show j + 1 = 1 + j from by omega, h1]
  · rw [h1, List.length_append, List.length_cons, List.length_nil]
  · rw [h2]
  · rw [h3]
    show m.countFireCount + j = m.countFireCount + (j + 1 - 1)
    omega

/-- Counterexample to C4 as stated: with collapsing enabled but an open
group as the last top-level entry, a single append is routed into the
group and the top-level entry count does not grow at all (it stays 1
instead of growing by exactly 1). -/
theorem c4_counterexample :
    ((ReplModel.mkEmpty true).startGroup "G" false none).collapseIdenticalLines = true ∧
    ((ReplModel.mkEmpty true).startGroup "G" false none).replElements.length = 1 ∧
    (((ReplModel.mkEmpty true).startGroup "G" false none).appendToRepl 0 ['a'] .info
        none).replElements.length = 1 :=
  ⟨rfl, rfl, rfl⟩

/-- Witness for C4 at three identical appends into the empty store. -/
theorem c4_witness :
    ((fun mm => ReplModel.appendToRepl mm 0 ['a'] .info none)^[3]
        (ReplModel.mkEmpty true)).replElements =
      [.simple 0 (.top 0) ['a'] .info none 3] ∧
    ((fun mm => ReplModel.appendToRepl mm 0 ['a'] .info none)^[3]
        (ReplModel.mkEmpty true)).fireCount = 1 ∧
    ((fun mm => ReplModel.appendToRepl mm 0 ['a'] .info none)^[3]
        (ReplModel.mkEmpty true)).countFireCount = 2 := by
  obtain ⟨h1, h2, h3, h4, h5⟩ := c4_collapse_identical (ReplModel.mkEmpty true) 0 ['a']
    .info none 3 (by omega) rfl rfl (by simp [ReplModel.mkEmpty, MAX_REPL_LENGTH])
    (by rw [lastNoCoalesce]; exact trivial)
  exact ⟨h1, h3, h4⟩

/-- A text ending in a carriage-return newline in particular ends in a
newline, so the source's second `endsWith` check is subsumed by the
first. -/
theorem endsWithCrNl_of_not_nl (v : List Char) (h : endsWithNl v = false) :
    endsWithCrNl v = false := by
  cases hc : endsWithCrNl v with
  | false => rfl
  | true =>
      rw [endsWithCrNl, List.isSuffixOf_iff_suffix] at hc
      have hn : List.isSuffixOf ['\n'] v = true := by
        rw [List.isSuffixOf_iff_suffix]
        exact List.IsSuffix.trans ⟨['\r'], rfl⟩ hc
      rw [endsWithNl] at h
      rw [h] at hn
      cases hn

/-- C5 (amended): an append whose text contains no clear-screen sequence,
arriving when the last top-level entry is a TextOutput of the same
severity with count 1, text not ending in a newline, and not eligible for
identical-line collapsing, replaces that entry in place: the top-level
length is unchanged, the last slot now holds a fresh element (identity
`top idCounter`, distinct from the previous identity) whose text is the
previous text concatenated with the new text, the store-level
notification fires exactly once, and the count emitter does not fire. -/
theorem c5_streaming_concat (m : ReplModel) (s : Nat) (data : List Char) (sev : Severity)
    (src : Option SourceRef) (ps : Nat) (pid : ElemId) (pval : List Char)
    (psrc : Option SourceRef)
    (hg : m.replElements.getLast? = some (.simple ps pid pval sev psrc 1))
    (hnc : ¬(pval = data ∧ areSourcesEqual psrc src = true ∧
      m.collapseIdenticalLines = true))
    (hnl : endsWithNl pval = false) (hclear : hasSeq clearSeq data = false)
    (hid : pid ≠ .top m.idCounter) :
    m.appendToRepl s data sev src =
      { m with
        replElements := m.replElements.dropLast ++
          [.simple s (.top m.idCounter) (pval ++ data) sev src 1],
        idCounter := m.idCounter + 1, fireCount := m.fireCount + 1 } ∧
    (m.appendToRepl s data sev src).replElements.length = m.replElements.length ∧
    (m.appendToRepl s data sev src).replElements.getLast? =
      some (.simple s (.top m.idCounter) (pval ++ data) sev src 1) ∧
    ElemId.top m.idCounter ≠ pid ∧
    (m.appendToRepl s data sev src).countFireCount = m.countFireCount := by
  have hcr := endsWithCrNl_of_not_nl pval hnl
  have hmain : m.appendToRepl s data sev src =
      { m with
        replElements := m.replElements.dropLast ++
          [.simple s (.top m.idCounter) (pval ++ data) sev src 1],
        idCounter := m.idCounter + 1, fireCount := m.fireCount + 1 } := by
    unfold ReplModel.appendToRepl
    rw [if_neg (by rw [hclear]; exact Bool.false_ne_true)]
    simp only [ReplModel.appendSimple, hg]
    rw [if_pos trivial, if_neg hnc, if_pos ⟨hnl, hcr, trivial⟩]
  have hne : m.replElements ≠ [] := by
    intro h0
    rw [h0] at hg
    cases hg
  refine ⟨hmain, ?_, ?_, fun h => hid h.symm, ?_⟩
  · rw [hmain]
    simp only [List.length_append, List.length_dropLast, List.length_cons, List.length_nil]
    have := List.length_pos.mpr hne
    omega
  · rw [hmain]
    exact List.getLast?_concat _
  · rw [hmain]

/-- Counterexample to C5 as stated: a text containing the clear-screen
sequence meets all the stated conditions on the previous entry (same
severity, count 1, no trailing newline, not collapsible) yet the call
clears the store first, so the previous entry is discarded and the
top-level length changes from 1 to 2 instead of staying unchanged. -/
theorem c5_counterexample :
    ((ReplModel.mkEmpty true).appendToRepl 0 ['a'] .info none).replElements.getLast? =
      some (.simple 0 (.top 0) ['a'] .info none 1) ∧
    endsWithNl ['a'] = false ∧
    ((ReplModel.mkEmpty true).appendToRepl 0 ['a'] .info none).replElements.length = 1 ∧
    (((ReplModel.mkEmpty true).appendToRepl 0 ['a'] .info none).appendToRepl 0
        "\x1b[2Jb".toList .info none).replElements.length = 2 :=
  ⟨rfl, rfl, rfl, rfl⟩

/-- Witness for C5: streaming "b" onto a lone "a" line glues the texts in
place with a fresh identity. -/
theorem c5_witness :
    (((ReplModel.mkEmpty true).appendToRepl 0 ['a'] .info none).appendToRepl 0 ['b'] .info
        none).replElements.length = 1 ∧
    (((ReplModel.mkEmpty true).appendToRepl 0 ['a'] .info none).appendToRepl 0 ['b'] .info
        none).replElements.getLast? =
      some (.simple 0 (.top 1) ['a', 'b'] .info none 1) := by
  have h := c5_streaming_concat ((ReplModel.mkEmpty true).appendToRepl 0 ['a'] .info none)
    0 ['b'] .info none 0 (.top 0) ['a'] none rfl
    (fun hc => absurd hc.1 (by decide)) rfl rfl (by decide)
  refine ⟨?_, h.2.2.1⟩
  rw [h.2.1]
  rfl

/-- The retained suffix of an append whose right part fits in the bound
keeps that right part whole. -/
theorem takeLast_append_general (k : Nat) (x y : List α) (h : y.length ≤ k) :
    takeLast k (x ++ y) = x.drop ((x ++ y).length - k) ++ y := by
  rw [takeLast, List.drop_append_of_le_length]
  rw [List.length_append]
  omega

/-- A top-level push always keeps the pushed element, preceded by a
suffix of the previous elements. -/
theorem pushTop_suffix (m : ReplModel) (e : ReplElement) :
    ∃ t, (m.pushTop e).replElements = t ++ [e] := by
  rw [pushTop_elements,
    takeLast_append_general MAX_REPL_LENGTH m.replElements [e]
      (by rw [MAX_REPL_LENGTH]; simp)]
  exact ⟨_, rfl⟩

/-- C7: `addReplExpression` (with an evaluation subsystem resolving to
`outcome`, never throwing) first inserts an EvaluationInput carrying the
typed text, then inserts an EvaluationResult whose `available` flag is
the outcome; when the store does not end in an open group both land at
the end of the top level, input before result, and the store emitter
fires once per insertion. -/
theorem c7_add_evaluation (m : ReplModel) (text : List Char) (outcome : Bool)
    (h : lastIsOpenGroup m.replElements = false) :
    (∃ pre, (m.addReplExpression text outcome).replElements =
        pre ++ [.evalInput (.uuid m.uuidCounter) text,
          .evalResult (.uuid (m.uuidCounter + 1)) outcome]) ∧
    (m.addReplExpression text outcome).replElements.getLast? =
      some (.evalResult (.uuid (m.uuidCounter + 1)) outcome) ∧
    (m.addReplExpression text outcome).fireCount = m.fireCount + 2 := by
  have h1 := addReplElement_push { m with uuidCounter := m.uuidCounter + 1 }
    (.evalInput (.uuid m.uuidCounter) text) h
  have e1 : m.addReplExpression text outcome =
      ReplModel.addReplElement
        { ({ m with uuidCounter := m.uuidCounter + 1 } : ReplModel).pushTop
            (.evalInput (.uuid m.uuidCounter) text) with
          uuidCounter := m.uuidCounter + 2 }
        (.evalResult (.uuid (m.uuidCounter + 1)) outcome) := by
    rw [show m.addReplExpression text outcome =
        ReplModel.addReplElement
          { (ReplModel.addReplElement { m with uuidCounter := m.uuidCounter + 1 }
              (.evalInput (.uuid m.uuidCounter) text)) with
            uuidCounter := (ReplModel.addReplElement
              { m with uuidCounter := m.uuidCounter + 1 }
              (.evalInput (.uuid m.uuidCounter) text)).uuidCounter + 1 }
          (.evalResult (.uuid (ReplModel.addReplElement
            { m with uuidCounter := m.uuidCounter + 1 }
            (.evalInput (.uuid m.uuidCounter) text)).uuidCounter) outcome) from rfl, h1]
    rfl
  obtain ⟨t1, ht1⟩ := pushTop_suffix { m with uuidCounter := m.uuidCounter + 1 }
    (.evalInput (.uuid m.uuidCounter) text)
  have hM2el : ({ ({ m with uuidCounter := m.uuidCounter + 1 } : ReplModel).pushTop
      (.evalInput (.uuid m.uuidCounter) text) with
      uuidCounter := m.uuidCounter + 2 } : ReplModel).replElements =
      t1 ++ [.evalInput (.uuid m.uuidCounter) text] := ht1
  have hlast2 : lastIsOpenGroup ({ ({ m with uuidCounter := m.uuidCounter + 1 } :
      ReplModel).pushTop (.evalInput (.uuid m.uuidCounter) text) with
      uuidCounter := m.uuidCounter + 2 } : ReplModel).replElements = false := by
    rw [lastIsOpenGroup, hM2el, List.getLast?_concat]
    rfl
  have h2 := addReplElement_push
    { ({ m with uuidCounter := m.uuidCounter + 1 } : ReplModel).pushTop
        (.evalInput (.uuid m.uuidCounter) text) with
      uuidCounter := m.uuidCounter + 2 }
    (.evalResult (.uuid (m.uuidCounter + 1)) outcome) hlast2
  rw [e1, h2]
  have hel : (({ ({ m with uuidCounter := m.uuidCounter + 1 } : ReplModel).pushTop
      (.evalInput (.uuid m.uuidCounter) text) with
      uuidCounter := m.uuidCounter + 2 } : ReplModel).pushTop
      (.evalResult (.uuid (m.uuidCounter + 1)) outcome)).replElements =
      t1.drop ((t1 ++ [ReplElement.evalInput (.uuid m.uuidCounter) text,
          ReplElement.evalResult (.uuid (m.uuidCounter + 1)) outcome]).length -
        MAX_REPL_LENGTH) ++
        [ReplElement.evalInput (.uuid m.uuidCounter) text,
         ReplElement.evalResult (.uuid (m.uuidCounter + 1)) outcome] := by
    rw [pushTop_elements, hM2el, List.append_assoc]
    rw [takeLast_append_general MAX_REPL_LENGTH t1 _ (by rw [MAX_REPL_LENGTH]; simp)]
    rfl
  refine ⟨⟨_, hel⟩, ?_, rfl⟩
  rw [hel, show t1.drop ((t1 ++ [ReplElement.evalInput (.uuid m.uuidCounter) text,
      ReplElement.evalResult (.uuid (m.uuidCounter + 1)) outcome]).length -
        MAX_REPL_LENGTH) ++
      [ReplElement.evalInput (.uuid m.uuidCounter) text,
       ReplElement.evalResult (.uuid (m.uuidCounter + 1)) outcome] =
      (t1.drop ((t1 ++ [ReplElement.evalInput (.uuid m.uuidCounter) text,
        ReplElement.evalResult (.uuid (m.uuidCounter + 1)) outcome]).length -
          MAX_REPL_LENGTH) ++
        [ReplElement.evalInput (.uuid m.uuidCounter) text]) ++
        [ReplElement.evalResult (.uuid (m.uuidCounter + 1)) outcome] from by
      rw [List.append_assoc]; rfl,
    List.getLast?_concat]

/-- Witness for C7 on the empty store with a failing evaluation. -/
theorem c7_witness :
    (((ReplModel.mkEmpty true).addReplExpression "1+1".toList false).replElements.getLast? =
      some (.evalResult (.uuid 1) false)) ∧
    ((ReplModel.mkEmpty true).addReplExpression "1+1".toList false).fireCount = 2 := by
  obtain ⟨h1, h2, h3⟩ := c7_add_evaluation (ReplModel.mkEmpty true) "1+1".toList false rfl
  exact ⟨h2, h3⟩

mutual

/-- Pre-order list of all subtrees of an element (the element itself
followed by the subtrees of its children). -/
def elemsOf : ReplElement → List ReplElement
  | .group id n ae src ch ended => .group id n ae src ch ended :: elemsOfL ch
  | e => [e]

/-- Pre-order list of all subtrees of the elements of a list. -/
def elemsOfL : List ReplElement → List ReplElement
  | [] => []
  | e :: rest => elemsOf e ++ elemsOfL rest

end

/-- All closed-group subtrees of an element, in traversal order. -/
def closedGroupsE (e : ReplElement) : List ReplElement :=
  (elemsOf e).filter isClosedGroup

/-- All closed-group subtrees of the elements of a list. -/
def closedGroupsL (l : List ReplElement) : List ReplElement :=
  (elemsOfL l).filter isClosedGroup

mutual

/-- No still-open group occurs anywhere in the subtree. -/
def allClosedE : ReplElement → Bool
  | .group _ _ _ _ ch ended => ended && allClosedL ch
  | _ => true

/-- No still-open group occurs anywhere under the elements of a list. -/
def allClosedL : List ReplElement → Bool
  | [] => true
  | e :: rest => allClosedE e && allClosedL rest

end

mutual

/-- Structural invariant of API-reachable element trees: a closed group
holds no still-open group anywhere inside, and in every children list a
still-open group can only be the last element. -/
def invE : ReplElement → Bool
  | .group _ _ _ _ ch ended => (!ended || allClosedL ch) && invL ch
  | _ => true

/-- The invariant over a children list: all members satisfy it and only
the last member may be a still-open group. -/
def invL : List ReplElement → Bool
  | [] => true
  | [e] => invE e
  | e :: rest => !(isOpenGroup e) && invE e && invL rest

end

/-- Stores reachable through the public store API from a fresh store:
string appends, group opening and closing, clearing, expression
evaluation, and direct insertion of non-group entries (the raw
structured-output path of `appendToRepl`). -/
inductive Reachable : ReplModel → Prop where
  | empty (collapse : Bool) : Reachable (ReplModel.mkEmpty collapse)
  | append (m : ReplModel) (s : Nat) (data : List Char) (sev : Severity)
      (src : Option SourceRef) : Reachable m → Reachable (m.appendToRepl s data sev src)
  | start (m : ReplModel) (name : String) (ae : Bool) (src : Option SourceRef) :
      Reachable m → Reachable (m.startGroup name ae src)
  | endG (m : ReplModel) : Reachable m → Reachable m.endGroup
  | clear (m : ReplModel) : Reachable m → Reachable m.removeReplExpressions
  | evalR (m : ReplModel) (text : List Char) (outcome : Bool) :
      Reachable m → Reachable (m.addReplExpression text outcome)
  | insertLeaf (m : ReplModel) (e : ReplElement) (h : isGroupE e = false) :
      Reachable m → Reachable (m.addReplElement e)

example : invL [ReplElement.group (.groupId 0) "A" false none
    [.evalInput (.uuid 0) [], .group (.groupId 1) "B" false none [] false] false] = true := rfl

example : invE (ReplElement.group (.groupId 0) "A" false none
    [.group (.groupId 1) "B" false none [] false, .evalInput (.uuid 0) []] true) = false := rfl

theorem closedGroupsL_nil : closedGroupsL [] = [] := rfl

/-- Traversal of a cons cell splits into head subtrees and tail. -/
theorem closedGroupsL_cons (e : ReplElement) (rest : List ReplElement) :
    closedGroupsL (e :: rest) = closedGroupsE e ++ closedGroupsL rest := by
  rw [closedGroupsL, closedGroupsE, closedGroupsL,
    show elemsOfL (e :: rest) = elemsOf e ++ elemsOfL rest from rfl, List.filter_append]

/-- Traversal splits over list append. -/
theorem closedGroupsL_append (l1 l2 : List ReplElement) :
    closedGroupsL (l1 ++ l2) = closedGroupsL l1 ++ closedGroupsL l2 := by
  induction l1 with
  | nil => rw [closedGroupsL_nil, List.nil_append, List.nil_append]
  | cons e r ih =>
      rw [List.cons_append, closedGroupsL_cons, closedGroupsL_cons, ih, List.append_assoc]

/-- An open group contributes only the closed groups of its children. -/
theorem closedGroupsE_openGroup (id : ElemId) (n : String) (ae : Bool)
    (src : Option SourceRef) (ch : List ReplElement) :
    closedGroupsE (.group id n ae src ch false) = closedGroupsL ch := by
  rw [closedGroupsE, closedGroupsL,
    show elemsOf (.group id n ae src ch false) =
      .group id n ae src ch false :: elemsOfL ch from rfl,
    List.filter_cons]
  simp [isClosedGroup]

/-- A closed group contributes itself and the closed groups of its
children. -/
theorem closedGroupsE_closedGroup (id : ElemId) (n : String) (ae : Bool)
    (src : Option SourceRef) (ch : List ReplElement) :
    closedGroupsE (.group id n ae src ch true) =
      .group id n ae src ch true :: closedGroupsL ch := by
  rw [closedGroupsE, closedGroupsL,
    show elemsOf (.group id n ae src ch true) =
      .group id n ae src ch true :: elemsOfL ch from rfl,
    List.filter_cons]
  simp [isClosedGroup]

theorem closedGroups_twoElems (e c : ReplElement) :
    closedGroupsL [e, c] = closedGroupsL [e] ++ closedGroupsE c := by
  rw [closedGroupsL_cons, closedGroupsL_cons, closedGroupsL_cons, closedGroupsL_nil,
    List.append_nil, List.append_nil]

/-- Adding a child into a children list only appends the child's own
closed groups after all existing ones: no closed group is entered or
modified by `addChild`. -/
theorem closedGroups_childrenAdd (c : ReplElement) :
    ∀ (ch : List ReplElement),
      closedGroupsL (childrenAdd c ch) = closedGroupsL ch ++ closedGroupsE c
  | [] => by
      rw [show childrenAdd c [] = [c] from rfl, closedGroupsL_cons, closedGroupsL_nil,
        List.append_nil, List.nil_append]
  | [ReplElement.group id n ae src ch2 false] => by
      rw [show childrenAdd c [ReplElement.group id n ae src ch2 false] =
          [ReplElement.group id n ae src (childrenAdd c ch2) false] from rfl]
      rw [closedGroupsL_cons, closedGroupsL_nil, List.append_nil,
        closedGroupsE_openGroup, closedGroups_childrenAdd c ch2]
      rw [closedGroupsL_cons, closedGroupsL_nil, List.append_nil, closedGroupsE_openGroup]
  | [ReplElement.group id n ae src ch2 true] => by
      rw [childrenAdd_notOpen (.group id n ae src ch2 true) rfl c, closedGroups_twoElems]
  | [ReplElement.simple s id v sev src cnt] => by
      rw [childrenAdd_notOpen (.simple s id v sev src cnt) rfl c, closedGroups_twoElems]
  | [ReplElement.rawObject id n v src an] => by
      rw [childrenAdd_notOpen (.rawObject id n v src an) rfl c, closedGroups_twoElems]
  | [ReplElement.evalInput id v] => by
      rw [childrenAdd_notOpen (.evalInput id v) rfl c, closedGroups_twoElems]
  | [ReplElement.evalResult id a] => by
      rw [childrenAdd_notOpen (.evalResult id a) rfl c, closedGroups_twoElems]
  | e :: f :: rest => by
      rw [childrenAdd_cons, closedGroupsL_cons, closedGroupsL_cons,
        closedGroups_childrenAdd c (f :: rest), List.append_assoc]

/-- Below the bound, a top-level push is a plain append. -/
theorem pushTop_noEvict (m : ReplModel) (e : ReplElement)
    (hlen : m.replElements.length < MAX_REPL_LENGTH) :
    (m.pushTop e).replElements = m.replElements ++ [e] := by
  rw [pushTop_elements, takeLast_of_le]
  rw [List.length_append, List.length_cons, List.length_nil]
  omega

theorem closedGroupsE_simple (s : Nat) (id : ElemId) (v : List Char) (sev : Severity)
    (src : Option SourceRef) (cnt : Nat) :
    closedGroupsE (.simple s id v sev src cnt) = [] := rfl

/-- Inserting an element appends exactly its own closed groups after all
existing ones (below the retention bound): no existing closed group is
entered, changed, or dropped. -/
theorem closedGroups_addReplElement (m : ReplModel) (e : ReplElement)
    (hlen : m.replElements.length < MAX_REPL_LENGTH) :
    closedGroupsL (m.addReplElement e).replElements =
      closedGroupsL m.replElements ++ closedGroupsE e := by
  cases hg : m.replElements.getLast? with
  | none =>
      rw [addReplElement_push m e (by rw [lastIsOpenGroup, hg]), pushTop_noEvict m e hlen,
        closedGroupsL_append, closedGroupsL_cons, closedGroupsL_nil, List.append_nil]
  | some last =>
      cases hb : isOpenGroup last with
      | false =>
          rw [addReplElement_push m e (by rw [lastIsOpenGroup, hg]; exact hb),
            pushTop_noEvict m e hlen, closedGroupsL_append, closedGroupsL_cons,
            closedGroupsL_nil, List.append_nil]
      | true =>
          obtain ⟨ys, hys⟩ := List.getLast?_eq_some_iff.mp hg
          cases last with
          | group id n ae src ch ended =>
              cases ended with
              | true => simp [isOpenGroup] at hb
              | false =>
                  have hstep : m.addReplElement e =
                      { m with
                        replElements :=
                          m.replElements.dropLast ++
                            [addChildElem e (.group id n ae src ch false)],
                        fireCount := m.fireCount + 1 } := by
                    simp [ReplModel.addReplElement, hg, hb]
                  rw [hstep]
                  rw [hys, List.dropLast_concat,
                    show addChildElem e (.group id n ae src ch false) =
                      .group id n ae src (childrenAdd e ch) false from rfl,
                    closedGroupsL_append, closedGroupsL_append, closedGroupsL_cons,
                    closedGroupsL_cons, closedGroupsL_nil, List.append_nil, List.append_nil,
                    closedGroupsE_openGroup, closedGroupsE_openGroup,
                    closedGroups_childrenAdd, List.append_assoc]
          | simple s2 id v sev src cnt => simp [isOpenGroup] at hb
          | rawObject id n v src an => simp [isOpenGroup] at hb
          | evalInput id v => simp [isOpenGroup] at hb
          | evalResult id a => simp [isOpenGroup] at hb

/-- The coalescing policy never changes the set of closed groups (below
the retention bound): simple text entries carry no groups. -/
theorem closedGroups_appendSimple (m : ReplModel) (s : Nat) (data : List Char)
    (sev : Severity) (src : Option SourceRef)
    (hlen : m.replElements.length < MAX_REPL_LENGTH) :
    closedGroupsL (m.appendSimple s data sev src).replElements =
      closedGroupsL m.replElements := by
  have hpush : closedGroupsL (m.pushNewSimple s data sev src).replElements =
      closedGroupsL m.replElements := by
    rw [ReplModel.pushNewSimple,
      closedGroups_addReplElement { m with idCounter := m.idCounter + 1 }
        (.simple s (.top m.idCounter) data sev src 1) hlen,
      closedGroupsE_simple, List.append_nil]
  cases hg : m.replElements.getLast? with
  | none =>
      rw [appendSimple_nil _ _ _ _ _ (List.getLast?_eq_none_iff.mp hg), hpush]
  | some last =>
      cases last with
      | simple ps pid pval psev psrc pcount =>
          by_cases hsev : psev = sev
          · obtain ⟨ys, hys⟩ := List.getLast?_eq_some_iff.mp hg
            by_cases hc1 : pval = data ∧ areSourcesEqual psrc src = true ∧
                m.collapseIdenticalLines = true
            · have hstep : m.appendSimple s data sev src =
                  { m with
                    replElements :=
                      m.replElements.dropLast ++
                        [.simple ps pid pval psev psrc (pcount + 1)],
                    countFireCount := m.countFireCount + 1 } := by
                simp only [ReplModel.appendSimple, hg]
                rw [if_pos hsev, if_pos hc1]
              rw [hstep, hys, List.dropLast_concat, closedGroupsL_append,
                closedGroupsL_append, closedGroupsL_cons, closedGroupsL_cons,
                closedGroupsL_nil, closedGroupsE_simple, closedGroupsE_simple]
            · by_cases hc2 : endsWithNl pval = false ∧ endsWithCrNl pval = false ∧
                  pcount = 1
              · have hstep : m.appendSimple s data sev src =
                    { m with
                      replElements :=
                        m.replElements.dropLast ++
                          [.simple s (.top m.idCounter) (pval ++ data) sev src 1],
                      idCounter := m.idCounter + 1,
                      fireCount := m.fireCount + 1 } := by
                  simp only [ReplModel.appendSimple, hg]
                  rw [if_pos hsev, if_neg hc1, if_pos hc2]
                rw [hstep, hys, List.dropLast_concat, closedGroupsL_append,
                  closedGroupsL_append, closedGroupsL_cons, closedGroupsL_cons,
                  closedGroupsL_nil, closedGroupsE_simple, closedGroupsE_simple]
              · have hstep : m.appendSimple s data sev src =
                    m.pushNewSimple s data sev src := by
                  simp only [ReplModel.appendSimple, hg]
                  rw [if_pos hsev, if_neg hc1, if_neg hc2]
                rw [hstep, hpush]
          · rw [appendSimple_diffSev _ _ _ _ _ ps pid pval psev psrc pcount hg hsev, hpush]
      | rawObject id n v src2 an =>
          rw [appendSimple_other _ _ _ _ _ _ hg (fun _ _ _ _ _ _ h => by cases h), hpush]
      | evalInput id v =>
          rw [appendSimple_other _ _ _ _ _ _ hg (fun _ _ _ _ _ _ h => by cases h), hpush]
      | evalResult id a =>
          rw [appendSimple_other _ _ _ _ _ _ hg (fun _ _ _ _ _ _ h => by cases h), hpush]
      | group id n ae src2 ch ended =>
          rw [appendSimple_other _ _ _ _ _ _ hg (fun _ _ _ _ _ _ h => by cases h), hpush]

theorem invL_nil : invL [] = true := rfl

theorem invL_singleton (e : ReplElement) : invL [e] = invE e := rfl

/-- Unfolding of the list invariant on a cons cell with non-empty tail. -/
theorem invL_cons_ne (x : ReplElement) (L : List ReplElement) (h : L ≠ []) :
    invL (x :: L) = (!(isOpenGroup x) && invE x && invL L) := by
  cases L with
  | nil => exact absurd rfl h
  | cons y rest => rfl

theorem invE_group (id : ElemId) (n : String) (ae : Bool) (src : Option SourceRef)
    (ch : List ReplElement) (ended : Bool) :
    invE (.group id n ae src ch ended) = ((!ended || allClosedL ch) && invL ch) := rfl

/-- All non-group elements satisfy the invariant. -/
theorem invE_nonGroup (e : ReplElement) (h : isGroupE e = false) : invE e = true := by
  cases e with
  | group id n ae src ch ended => simp [isGroupE] at h
  | simple s id v sev src cnt => rfl
  | rawObject id n v src an => rfl
  | evalInput id v => rfl
  | evalResult id a => rfl

/-- The invariant passes to the tail of a list. -/
theorem invL_tail (x : ReplElement) (L : List ReplElement) (h : invL (x :: L) = true) :
    invL L = true := by
  cases L with
  | nil => rfl
  | cons y rest =>
      rw [invL_cons_ne x (y :: rest) (List.cons_ne_nil y rest)] at h
      simp only [Bool.and_eq_true] at h
      exact h.2

/-- The invariant passes to every member of a list. -/
theorem invL_mem (l : List ReplElement) (h : invL l = true) :
    ∀ e ∈ l, invE e = true := by
  induction l with
  | nil => intro e he; cases he
  | cons x L ih =>
      intro e he
      rcases List.mem_cons.mp he with rfl | hmem
      · cases L with
        | nil => exact h
        | cons y rest =>
            rw [invL_cons_ne e (y :: rest) (List.cons_ne_nil y rest)] at h
            simp only [Bool.and_eq_true] at h
            exact h.1.2
      · exact ih (invL_tail x L h) e hmem

/-- The invariant survives dropping a prefix. -/
theorem invL_drop (k : Nat) (l : List ReplElement) (h : invL l = true) :
    invL (l.drop k) = true := by
  induction k generalizing l with
  | zero => exact h
  | succ k ih =>
      cases l with
      | nil => rfl
      | cons x L => exact ih L (invL_tail x L h)

theorem allClosedL_cons (e : ReplElement) (r : List ReplElement) :
    allClosedL (e :: r) = (allClosedE e && allClosedL r) := rfl

/-- Full closedness passes to every member of a list. -/
theorem allClosedL_mem (l : List ReplElement) (h : allClosedL l = true) :
    ∀ e ∈ l, allClosedE e = true := by
  induction l with
  | nil => intro e he; cases he
  | cons x L ih =>
      rw [allClosedL_cons] at h
      simp only [Bool.and_eq_true] at h
      intro e he
      rcases List.mem_cons.mp he with rfl | hmem
      · exact h.1
      · exact ih h.2 e hmem

/-- An invariant element that is not a still-open group is fully closed. -/
theorem allClosedE_of_inv_notOpen (e : ReplElement) (h1 : isOpenGroup e = false)
    (h2 : invE e = true) : allClosedE e = true := by
  cases e with
  | group id n ae src ch ended =>
      cases ended with
      | false => simp [isOpenGroup] at h1
      | true =>
          rw [invE_group] at h2
          simp only [Bool.not_true, Bool.false_or, Bool.and_eq_true] at h2
          rw [show allClosedE (.group id n ae src ch true) = (true && allClosedL ch)
            from rfl]
          simp [h2.1]
  | simple s id v sev src cnt => rfl
  | rawObject id n v src an => rfl
  | evalInput id v => rfl
  | evalResult id a => rfl

theorem lastIsOpenGroup_cons_cons (x y : ReplElement) (rest : List ReplElement) :
    lastIsOpenGroup (x :: y :: rest) = lastIsOpenGroup (y :: rest) := by
  rw [lastIsOpenGroup, lastIsOpenGroup, List.getLast?_cons_cons]

/-- An invariant children list not ending in a still-open group is fully
closed. -/
theorem allClosedL_of_inv (ch : List ReplElement) (h1 : invL ch = true)
    (h2 : lastIsOpenGroup ch = false) : allClosedL ch = true := by
  induction ch with
  | nil => rfl
  | cons x L ih =>
      cases L with
      | nil =>
          rw [show lastIsOpenGroup [x] = isOpenGroup x from rfl] at h2
          rw [allClosedL_cons, allClosedE_of_inv_notOpen x h2 h1]
          rfl
      | cons y rest =>
          rw [lastIsOpenGroup_cons_cons] at h2
          rw [invL_cons_ne x (y :: rest) (List.cons_ne_nil y rest)] at h1
          simp only [Bool.and_eq_true] at h1
          rw [allClosedL_cons, allClosedE_of_inv_notOpen x (by simpa using h1.1.1) h1.1.2,
            ih h1.2 h2]
          rfl

/-- Closing delegation halts on a fully closed children list. -/
theorem endChildren_none_of_allClosed (ch : List ReplElement)
    (h : allClosedL ch = true) : endChildren ch = none := by
  rw [endChildren_eq]
  cases hg : ch.getLast? with
  | none => rfl
  | some g =>
      have hmem := allClosedL_mem ch h g (List.mem_of_getLast?_eq_some hg)
      cases g with
      | group cid cn cae csrc cch cended =>
          cases cended with
          | false =>
              rw [show allClosedE (.group cid cn cae csrc cch false) =
                (false && allClosedL cch) from rfl] at hmem
              simp at hmem
          | true => rfl
      | simple s id v sev src cnt => rfl
      | rawObject id n v src an => rfl
      | evalInput id v => rfl
      | evalResult id a => rfl

/-- Elimination of the invariant over a concat: all leading elements are
non-open invariant elements and the last element is invariant. -/
theorem invL_concat_elim (ys : List ReplElement) (x : ReplElement)
    (h : invL (ys ++ [x]) = true) :
    (∀ e ∈ ys, isOpenGroup e = false ∧ invE e = true) ∧ invE x = true := by
  induction ys with
  | nil =>
      rw [List.nil_append, invL_singleton] at h
      exact ⟨fun e he => absurd he (List.not_mem_nil e), h⟩
  | cons y ys2 ih =>
      rw [List.cons_append,
        invL_cons_ne y (ys2 ++ [x]) (by simp)] at h
      simp only [Bool.and_eq_true, Bool.not_eq_true'] at h
      obtain ⟨hrest, hx⟩ := ih h.2
      refine ⟨?_, hx⟩
      intro e he
      rcases List.mem_cons.mp he with rfl | hmem
      · exact ⟨h.1.1, h.1.2⟩
      · exact hrest e hmem

/-- Introduction of the invariant over a concat. -/
theorem invL_concat_intro (ys : List ReplElement) (x : ReplElement)
    (h1 : ∀ e ∈ ys, isOpenGroup e = false ∧ invE e = true) (h2 : invE x = true) :
    invL (ys ++ [x]) = true := by
  induction ys with
  | nil => rw [List.nil_append, invL_singleton]; exact h2
  | cons y ys2 ih =>
      rw [List.cons_append, invL_cons_ne y (ys2 ++ [x]) (by simp)]
      have hy := h1 y (List.mem_cons_self y ys2)
      simp only [Bool.and_eq_true, Bool.not_eq_true']
      exact ⟨⟨hy.1, hy.2⟩, ih (fun e he => h1 e (List.mem_cons_of_mem y he))⟩

/-- `addChild` never empties a children list. -/
theorem childrenAdd_ne_nil (c : ReplElement) : ∀ (ch : List ReplElement),
    childrenAdd c ch ≠ []
  | [] => List.cons_ne_nil c []
  | [ReplElement.group id n ae src ch2 false] => by
      rw [show childrenAdd c [ReplElement.group id n ae src ch2 false] =
        [ReplElement.group id n ae src (childrenAdd c ch2) false] from rfl]
      exact List.cons_ne_nil _ _
  | [ReplElement.group id n ae src ch2 true] => by
      rw [childrenAdd_notOpen (.group id n ae src ch2 true) rfl c]
      exact List.cons_ne_nil _ _
  | [ReplElement.simple s id v sev src cnt] => by
      rw [childrenAdd_notOpen (.simple s id v sev src cnt) rfl c]
      exact List.cons_ne_nil _ _
  | [ReplElement.rawObject id n v src an] => by
      rw [childrenAdd_notOpen (.rawObject id n v src an) rfl c]
      exact List.cons_ne_nil _ _
  | [ReplElement.evalInput id v] => by
      rw [childrenAdd_notOpen (.evalInput id v) rfl c]
      exact List.cons_ne_nil _ _
  | [ReplElement.evalResult id a] => by
      rw [childrenAdd_notOpen (.evalResult id a) rfl c]
      exact List.cons_ne_nil _ _
  | e :: f :: rest => by
      rw [childrenAdd_cons]
      exact List.cons_ne_nil _ _

/-- `addChild` of an invariant element preserves the invariant of a
children list: the new child lands at the very end (of the innermost open
group), so the only-last-may-be-open rule survives. -/
theorem inv_childrenAdd (c : ReplElement) (hc : invE c = true) :
    ∀ (ch : List ReplElement), invL ch = true → invL (childrenAdd c ch) = true
  | [] => by
      intro _
      rw [show childrenAdd c [] = [c] from rfl, invL_singleton]
      exact hc
  | [ReplElement.group id n ae src ch2 false] => by
      intro h
      rw [invL_singleton, invE_group] at h
      simp only [Bool.not_false, Bool.true_or, Bool.true_and] at h
      rw [show childrenAdd c [ReplElement.group id n ae src ch2 false] =
        [ReplElement.group id n ae src (childrenAdd c ch2) false] from rfl,
        invL_singleton, invE_group]
      simp only [Bool.not_false, Bool.true_or, Bool.true_and]
      exact inv_childrenAdd c hc ch2 h
  | [ReplElement.group id n ae src ch2 true] => by
      intro h
      rw [invL_singleton] at h
      rw [childrenAdd_notOpen (.group id n ae src ch2 true) rfl c,
        invL_cons_ne _ [c] (List.cons_ne_nil c []), invL_singleton]
      simp only [Bool.and_eq_true, Bool.not_eq_true']
      exact ⟨⟨rfl, h⟩, hc⟩
  | [ReplElement.simple s id v sev src cnt] => by
      intro h
      rw [invL_singleton] at h
      rw [childrenAdd_notOpen (.simple s id v sev src cnt) rfl c,
        invL_cons_ne _ [c] (List.cons_ne_nil c []), invL_singleton]
      simp only [Bool.and_eq_true, Bool.not_eq_true']
      exact ⟨⟨rfl, h⟩, hc⟩
  | [ReplElement.rawObject id n v src an] => by
      intro h
      rw [invL_singleton] at h
      rw [childrenAdd_notOpen (.rawObject id n v src an) rfl c,
        invL_cons_ne _ [c] (List.cons_ne_nil c []), invL_singleton]
      simp only [Bool.and_eq_true, Bool.not_eq_true']
      exact ⟨⟨rfl, h⟩, hc⟩
  | [ReplElement.evalInput id v] => by
      intro h
      rw [invL_singleton] at h
      rw [childrenAdd_notOpen (.evalInput id v) rfl c,
        invL_cons_ne _ [c] (List.cons_ne_nil c []), invL_singleton]
      simp only [Bool.and_eq_true, Bool.not_eq_true']
      exact ⟨⟨rfl, h⟩, hc⟩
  | [ReplElement.evalResult id a] => by
      intro h
      rw [invL_singleton] at h
      rw [childrenAdd_notOpen (.evalResult id a) rfl c,
        invL_cons_ne _ [c] (List.cons_ne_nil c []), invL_singleton]
      simp only [Bool.and_eq_true, Bool.not_eq_true']
      exact ⟨⟨rfl, h⟩, hc⟩
  | e :: f :: rest => by
      intro h
      rw [invL_cons_ne e (f :: rest) (List.cons_ne_nil f rest)] at h
      simp only [Bool.and_eq_true, Bool.not_eq_true'] at h
      rw [childrenAdd_cons,
        invL_cons_ne e (childrenAdd c (f :: rest)) (childrenAdd_ne_nil c (f :: rest))]
      simp only [Bool.and_eq_true, Bool.not_eq_true']
      exact ⟨h.1, inv_childrenAdd c hc (f :: rest) h.2⟩

/-- `end()` preserves the invariant of an element: closing marks the
innermost open group along the last-child chain, whose children were
already fully closed by the invariant. -/
theorem inv_endGroupElem : ∀ (e : ReplElement), invE e = true →
    invE (endGroupElem e) = true
  | .group id n ae src ch ended => by
      intro h
      rw [invE_group] at h
      simp only [Bool.and_eq_true] at h
      rw [endGroupElem_group, endChildren_eq]
      cases hg : ch.getLast? with
      | none =>
          rw [invE_group]
          simp only [Bool.not_true, Bool.false_or, Bool.and_eq_true]
          exact ⟨allClosedL_of_inv ch h.2 (by rw [lastIsOpenGroup, hg]), h.2⟩
      | some g =>
          cases g with
          | group cid cn cae csrc cch cended =>
              cases cended with
              | false =>
                  cases ended with
                  | true =>
                      exfalso
                      have hac : allClosedL ch = true := by
                        have h1 := h.1
                        simp only [Bool.not_true, Bool.false_or] at h1
                        exact h1
                      have hmem := allClosedL_mem ch hac _
                        (List.mem_of_getLast?_eq_some hg)
                      rw [show allClosedE (.group cid cn cae csrc cch false) =
                        (false && allClosedL cch) from rfl] at hmem
                      simp at hmem
                  | false =>
                      obtain ⟨ys, hys⟩ := List.getLast?_eq_some_iff.mp hg
                      have hinvch := h.2
                      rw [hys] at hinvch
                      obtain ⟨hparts, hginv⟩ := invL_concat_elim ys _ hinvch
                      rw [invE_group]
                      simp only [Bool.not_false, Bool.true_or, Bool.true_and]
                      rw [hys, List.dropLast_concat]
                      exact invL_concat_intro ys _ hparts
                        (inv_endGroupElem (.group cid cn cae csrc cch false) hginv)
              | true =>
                  rw [invE_group]
                  simp only [Bool.not_true, Bool.false_or, Bool.and_eq_true]
                  exact ⟨allClosedL_of_inv ch h.2 (by rw [lastIsOpenGroup, hg]; rfl), h.2⟩
          | simple s id2 v sev src2 cnt =>
              rw [invE_group]
              simp only [Bool.not_true, Bool.false_or, Bool.and_eq_true]
              exact ⟨allClosedL_of_inv ch h.2 (by rw [lastIsOpenGroup, hg]; rfl), h.2⟩
          | rawObject id2 n2 v src2 an =>
              rw [invE_group]
              simp only [Bool.not_true, Bool.false_or, Bool.and_eq_true]
              exact ⟨allClosedL_of_inv ch h.2 (by rw [lastIsOpenGroup, hg]; rfl), h.2⟩
          | evalInput id2 v =>
              rw [invE_group]
              simp only [Bool.not_true, Bool.false_or, Bool.and_eq_true]
              exact ⟨allClosedL_of_inv ch h.2 (by rw [lastIsOpenGroup, hg]; rfl), h.2⟩
          | evalResult id2 a =>
              rw [invE_group]
              simp only [Bool.not_true, Bool.false_or, Bool.and_eq_true]
              exact ⟨allClosedL_of_inv ch h.2 (by rw [lastIsOpenGroup, hg]; rfl), h.2⟩
  | .simple s id v sev src cnt => fun h => h
  | .rawObject id n v src an => fun h => h
  | .evalInput id v => fun h => h
  | .evalResult id a => fun h => h
decreasing_by
  have h1 := List.sizeOf_lt_of_mem (List.mem_of_getLast?_eq_some hg)
  simp only [ReplElement.group.sizeOf_spec] at h1 ⊢
  omega

/-- In an invariant list not ending in a still-open group, no member is a
still-open group at all. -/
theorem invL_parts (l : List ReplElement) (h1 : invL l = true)
    (h2 : lastIsOpenGroup l = false) :
    ∀ x ∈ l, isOpenGroup x = false ∧ invE x = true := by
  induction l with
  | nil => intro x hx; cases hx
  | cons e L ih =>
      intro x hx
      cases L with
      | nil =>
          rcases List.mem_cons.mp hx with rfl | hmem
          · rw [show lastIsOpenGroup [x] = isOpenGroup x from rfl] at h2
            exact ⟨h2, h1⟩
          · cases hmem
      | cons f rest =>
          rw [invL_cons_ne e (f :: rest) (List.cons_ne_nil f rest)] at h1
          simp only [Bool.and_eq_true, Bool.not_eq_true'] at h1
          rw [lastIsOpenGroup_cons_cons] at h2
          rcases List.mem_cons.mp hx with rfl | hmem
          · exact ⟨h1.1.1, h1.1.2⟩
          · exact ih h1.2 h2 x hmem

/-- A top-level push of an invariant element into an invariant store not
ending in an open group keeps the invariant (any eviction only drops a
prefix). -/
theorem inv_pushTop (m : ReplModel) (e : ReplElement) (he : invE e = true)
    (hInv : invL m.replElements = true)
    (hopen : lastIsOpenGroup m.replElements = false) :
    invL (m.pushTop e).replElements = true := by
  rw [pushTop_elements, takeLast]
  exact invL_drop _ _ (invL_concat_intro m.replElements e
    (invL_parts m.replElements hInv hopen) he)

/-- `addReplElement` of an invariant element preserves the store
invariant in both branches. -/
theorem inv_addReplElement (m : ReplModel) (e : ReplElement) (he : invE e = true)
    (hInv : invL m.replElements = true) :
    invL (m.addReplElement e).replElements = true := by
  cases hg : m.replElements.getLast? with
  | none =>
      rw [addReplElement_push m e (by rw [lastIsOpenGroup, hg])]
      exact inv_pushTop m e he hInv (by rw [lastIsOpenGroup, hg])
  | some last =>
      cases hb : isOpenGroup last with
      | false =>
          rw [addReplElement_push m e (by rw [lastIsOpenGroup, hg]; exact hb)]
          exact inv_pushTop m e he hInv (by rw [lastIsOpenGroup, hg]; exact hb)
      | true =>
          obtain ⟨ys, hys⟩ := List.getLast?_eq_some_iff.mp hg
          cases last with
          | group id n ae src ch ended =>
              cases ended with
              | true => simp [isOpenGroup] at hb
              | false =>
                  have hstep : m.addReplElement e =
                      { m with
                        replElements :=
                          m.replElements.dropLast ++
                            [addChildElem e (.group id n ae src ch false)],
                        fireCount := m.fireCount + 1 } := by
                    simp [ReplModel.addReplElement, hg, hb]
                  rw [hstep]
                  show invL (m.replElements.dropLast ++
                    [addChildElem e (.group id n ae src ch false)]) = true
                  rw [hys, List.dropLast_concat,
                    show addChildElem e (.group id n ae src ch false) =
                      .group id n ae src (childrenAdd e ch) false from rfl]
                  rw [hys] at hInv
                  obtain ⟨hparts, hglast⟩ := invL_concat_elim ys _ hInv
                  rw [invE_group] at hglast
                  simp only [Bool.not_false, Bool.true_or, Bool.true_and] at hglast
                  refine invL_concat_intro ys _ hparts ?_
                  rw [invE_group]
                  simp only [Bool.not_false, Bool.true_or, Bool.true_and]
                  exact inv_childrenAdd e he ch hglast
          | simple s2 id v sev src cnt => simp [isOpenGroup] at hb
          | rawObject id n v src an => simp [isOpenGroup] at hb
          | evalInput id v => simp [isOpenGroup] at hb
          | evalResult id a => simp [isOpenGroup] at hb

/-- The coalescing policy preserves the store invariant: every branch
either replaces the last simple entry by another simple entry or inserts
a fresh simple entry. -/
theorem inv_appendSimple (m : ReplModel) (s : Nat) (data : List Char)
    (sev : Severity) (src : Option SourceRef) (hInv : invL m.replElements = true) :
    invL (m.appendSimple s data sev src).replElements = true := by
  have hpush : invL (m.pushNewSimple s data sev src).replElements = true := by
    rw [ReplModel.pushNewSimple]
    exact inv_addReplElement { m with idCounter := m.idCounter + 1 }
      (.simple s (.top m.idCounter) data sev src 1) rfl hInv
  cases hg : m.replElements.getLast? with
  | none =>
      rw [appendSimple_nil _ _ _ _ _ (List.getLast?_eq_none_iff.mp hg)]
      exact hpush
  | some last =>
      cases last with
      | simple ps pid pval psev psrc pcount =>
          by_cases hsev : psev = sev
          · obtain ⟨ys, hys⟩ := List.getLast?_eq_some_iff.mp hg
            have hparts := (invL_concat_elim ys _ (hys ▸ hInv)).1
            by_cases hc1 : pval = data ∧ areSourcesEqual psrc src = true ∧
                m.collapseIdenticalLines = true
            · have hstep : m.appendSimple s data sev src =
                  { m with
                    replElements :=
                      m.replElements.dropLast ++
                        [.simple ps pid pval psev psrc (pcount + 1)],
                    countFireCount := m.countFireCount + 1 } := by
                simp only [ReplModel.appendSimple, hg]
                rw [if_pos hsev, if_pos hc1]
              rw [hstep]
              show invL (m.replElements.dropLast ++
                [ReplElement.simple ps pid pval psev psrc (pcount + 1)]) = true
              rw [hys, List.dropLast_concat]
              exact invL_concat_intro ys _ hparts rfl
            · by_cases hc2 : endsWithNl pval = false ∧ endsWithCrNl pval = false ∧
                  pcount = 1
              · have hstep : m.appendSimple s data sev src =
                    { m with
                      replElements :=
                        m.replElements.dropLast ++
                          [.simple s (.top m.idCounter) (pval ++ data) sev src 1],
                      idCounter := m.idCounter + 1,
                      fireCount := m.fireCount + 1 } := by
                  simp only [ReplModel.appendSimple, hg]
                  rw [if_pos hsev, if_neg hc1, if_pos hc2]
                rw [hstep]
                show invL (m.replElements.dropLast ++
                  [ReplElement.simple s (.top m.idCounter) (pval ++ data) sev src 1]) = true
                rw [hys, List.dropLast_concat]
                exact invL_concat_intro ys _ hparts rfl
              · have hstep : m.appendSimple s data sev src =
                    m.pushNewSimple s data sev src := by
                  simp only [ReplModel.appendSimple, hg]
                  rw [if_pos hsev, if_neg hc1, if_neg hc2]
                rw [hstep]
                exact hpush
          · rw [appendSimple_diffSev _ _ _ _ _ ps pid pval psev psrc pcount hg hsev]
            exact hpush
      | rawObject id n v src2 an =>
          rw [appendSimple_other _ _ _ _ _ _ hg (fun _ _ _ _ _ _ h => by cases h)]
          exact hpush
      | evalInput id v =>
          rw [appendSimple_other _ _ _ _ _ _ hg (fun _ _ _ _ _ _ h => by cases h)]
          exact hpush
      | evalResult id a =>
          rw [appendSimple_other _ _ _ _ _ _ hg (fun _ _ _ _ _ _ h => by cases h)]
          exact hpush
      | group id n ae src2 ch ended =>
          rw [appendSimple_other _ _ _ _ _ _ hg (fun _ _ _ _ _ _ h => by cases h)]
          exact hpush

/-- `clear()` preserves the store invariant (the store becomes empty). -/
theorem inv_clear (m : ReplModel) :
    invL (m.removeReplExpressions).replElements = true := by
  rw [(clear_fields m).1]
  rfl

/-- `appendToRepl` preserves the store invariant in both the clear and
the plain branch. -/
theorem inv_appendToRepl (m : ReplModel) (s : Nat) (data : List Char)
    (sev : Severity) (src : Option SourceRef) (hInv : invL m.replElements = true) :
    invL (m.appendToRepl s data sev src).replElements = true := by
  rw [ReplModel.appendToRepl]
  by_cases hc : hasSeq clearSeq data = true
  · rw [if_pos hc]
    exact inv_appendSimple _ _ _ _ _ (inv_appendSimple _ _ _ _ _ (inv_clear m))
  · rw [if_neg hc]
    exact inv_appendSimple _ _ _ _ _ hInv

/-- `endGroup` preserves the store invariant: at most the last slot is
replaced by the result of its `end()`, which is invariant-preserving. -/
theorem inv_endGroup (m : ReplModel) (hInv : invL m.replElements = true) :
    invL (m.endGroup).replElements = true := by
  rcases endGroup_cases m with ⟨heq, _⟩ | ⟨e, hg, hge, heq⟩
  · rw [heq]; exact hInv
  · rw [heq]
    show invL (m.replElements.dropLast ++ [endGroupElem e]) = true
    obtain ⟨ys, hys⟩ := List.getLast?_eq_some_iff.mp hg
    rw [hys, List.dropLast_concat]
    obtain ⟨hparts, hlast⟩ := invL_concat_elim ys _ (hys ▸ hInv)
    exact invL_concat_intro ys _ hparts (inv_endGroupElem e hlast)

/-- `addReplExpression` preserves the store invariant (two insertions of
non-group entries). -/
theorem inv_addReplExpression (m : ReplModel) (text : List Char) (outcome : Bool)
    (hInv : invL m.replElements = true) :
    invL (m.addReplExpression text outcome).replElements = true := by
  rw [ReplModel.addReplExpression]
  exact inv_addReplElement _ _ rfl (inv_addReplElement _ _ rfl hInv)

/-- Every store reachable through the public API satisfies the structural
invariant. -/
theorem reachable_inv (m : ReplModel) (hr : Reachable m) :
    invL m.replElements = true := by
  induction hr with
  | empty collapse => rfl
  | append m s data sev src _ ih => exact inv_appendToRepl m s data sev src ih
  | start m name ae src _ ih =>
      rw [ReplModel.startGroup]
      exact inv_addReplElement _ _ rfl ih
  | endG m _ ih => exact inv_endGroup m ih
  | clear m _ ih => exact inv_clear m
  | evalR m text outcome _ ih => exact inv_addReplExpression m text outcome ih
  | insertLeaf m e h _ ih => exact inv_addReplElement m e (invE_nonGroup e h) ih

/-- `end()` never removes a closed group: every closed-group subtree of
an invariant element is still a closed-group subtree after `end()` (in
fact unchanged: membership is by value, carrying the whole subtree). -/
theorem closedGroups_endGroupElem_mem : ∀ (e : ReplElement), invE e = true →
    ∀ g ∈ closedGroupsE e, g ∈ closedGroupsE (endGroupElem e)
  | .group id n ae src ch ended => by
      intro h g hgmem
      rw [invE_group] at h
      simp only [Bool.and_eq_true] at h
      rw [endGroupElem_group, endChildren_eq]
      cases hgl : ch.getLast? with
      | none =>
          cases ended with
          | true => exact hgmem
          | false =>
              rw [closedGroupsE_closedGroup]
              rw [closedGroupsE_openGroup] at hgmem
              exact List.mem_cons_of_mem _ hgmem
      | some gl =>
          cases gl with
          | group cid cn cae csrc cch cended =>
              cases cended with
              | false =>
                  cases ended with
                  | true =>
                      exfalso
                      have hac : allClosedL ch = true := by
                        have h1 := h.1
                        simp only [Bool.not_true, Bool.false_or] at h1
                        exact h1
                      have hmem := allClosedL_mem ch hac _
                        (List.mem_of_getLast?_eq_some hgl)
                      rw [show allClosedE (.group cid cn cae csrc cch false) =
                        (false && allClosedL cch) from rfl] at hmem
                      simp at hmem
                  | false =>
                      obtain ⟨ys, hys⟩ := List.getLast?_eq_some_iff.mp hgl
                      rw [closedGroupsE_openGroup] at hgmem ⊢
                      rw [hys, List.dropLast_concat, closedGroupsL_append,
                        closedGroupsL_cons, closedGroupsL_nil, List.append_nil]
                      rw [hys, closedGroupsL_append, closedGroupsL_cons,
                        closedGroupsL_nil, List.append_nil] at hgmem
                      rcases List.mem_append.mp hgmem with hl | hr
                      · exact List.mem_append.mpr (Or.inl hl)
                      · have hginv : invE (.group cid cn cae csrc cch false) = true := by
                          have h2 := h.2
                          rw [hys] at h2
                          exact (invL_concat_elim ys _ h2).2
                        exact List.mem_append.mpr (Or.inr
                          (closedGroups_endGroupElem_mem
                            (.group cid cn cae csrc cch false) hginv g hr))
              | true =>
                  cases ended with
                  | true => exact hgmem
                  | false =>
                      rw [closedGroupsE_closedGroup]
                      rw [closedGroupsE_openGroup] at hgmem
                      exact List.mem_cons_of_mem _ hgmem
          | simple s id2 v sev src2 cnt =>
              cases ended with
              | true => exact hgmem
              | false =>
                  rw [closedGroupsE_closedGroup]
                  rw [closedGroupsE_openGroup] at hgmem
                  exact List.mem_cons_of_mem _ hgmem
          | rawObject id2 n2 v src2 an =>
              cases ended with
              | true => exact hgmem
              | false =>
                  rw [closedGroupsE_closedGroup]
                  rw [closedGroupsE_openGroup] at hgmem
                  exact List.mem_cons_of_mem _ hgmem
          | evalInput id2 v =>
              cases ended with
              | true => exact hgmem
              | false =>
                  rw [closedGroupsE_closedGroup]
                  rw [closedGroupsE_openGroup] at hgmem
                  exact List.mem_cons_of_mem _ hgmem
          | evalResult id2 a =>
              cases ended with
              | true => exact hgmem
              | false =>
                  rw [closedGroupsE_closedGroup]
                  rw [closedGroupsE_openGroup] at hgmem
                  exact List.mem_cons_of_mem _ hgmem
  | .simple s id v sev src cnt => fun _ g hg => hg
  | .rawObject id n v src an => fun _ g hg => hg
  | .evalInput id v => fun _ g hg => hg
  | .evalResult id a => fun _ g hg => hg
decreasing_by
  have h1 := List.sizeOf_lt_of_mem (List.mem_of_getLast?_eq_some hgl)
  simp only [ReplElement.group.sizeOf_spec] at h1 ⊢
  omega

theorem elemsOfL_cons (e : ReplElement) (rest : List ReplElement) :
    elemsOfL (e :: rest) = elemsOf e ++ elemsOfL rest := rfl

/-- A subtree listed under a list traversal comes from one of its
elements. -/
theorem elemsOfL_mem_split (g : ReplElement) : ∀ (l : List ReplElement),
    g ∈ elemsOfL l → ∃ x, x ∈ l ∧ g ∈ elemsOf x
  | [] => fun h => absurd h (List.not_mem_nil g)
  | e :: rest => by
      intro h
      rw [elemsOfL_cons] at h
      rcases List.mem_append.mp h with h1 | h2
      · exact ⟨e, List.mem_cons_self e rest, h1⟩
      · obtain ⟨x, hx, hgx⟩ := elemsOfL_mem_split g rest h2
        exact ⟨x, List.mem_cons_of_mem e hx, hgx⟩

/-- The invariant is hereditary: it holds of every subtree of an
invariant element. -/
theorem invE_elemsOf : ∀ (e : ReplElement), invE e = true →
    ∀ g, g ∈ elemsOf e → invE g = true
  | .group id n ae src ch ended => by
      intro h g hg
      rw [show elemsOf (ReplElement.group id n ae src ch ended) =
        ReplElement.group id n ae src ch ended :: elemsOfL ch from rfl] at hg
      rcases List.mem_cons.mp hg with rfl | hmem
      · exact h
      · obtain ⟨x, hx, hgx⟩ := elemsOfL_mem_split g ch hmem
        have hxinv : invE x = true := by
          rw [invE_group] at h
          simp only [Bool.and_eq_true] at h
          exact invL_mem ch h.2 x hx
        exact invE_elemsOf x hxinv g hgx
  | .simple s id v sev src cnt => by
      intro h g hg
      rw [show elemsOf (ReplElement.simple s id v sev src cnt) =
        [ReplElement.simple s id v sev src cnt] from rfl] at hg
      rw [List.mem_singleton.mp hg]
      exact h
  | .rawObject id n v src an => by
      intro h g hg
      rw [show elemsOf (ReplElement.rawObject id n v src an) =
        [ReplElement.rawObject id n v src an] from rfl] at hg
      rw [List.mem_singleton.mp hg]
      exact h
  | .evalInput id v => by
      intro h g hg
      rw [show elemsOf (ReplElement.evalInput id v) =
        [ReplElement.evalInput id v] from rfl] at hg
      rw [List.mem_singleton.mp hg]
      exact h
  | .evalResult id a => by
      intro h g hg
      rw [show elemsOf (ReplElement.evalResult id a) =
        [ReplElement.evalResult id a] from rfl] at hg
      rw [List.mem_singleton.mp hg]
      exact h
decreasing_by
  have h1 := List.sizeOf_lt_of_mem hx
  simp only [ReplElement.group.sizeOf_spec] at h1 ⊢
  omega

/-- `end()` on a closed invariant group is the identity. -/
theorem endGroupElem_closed_id (g : ReplElement) (h1 : isClosedGroup g = true)
    (h2 : invE g = true) : endGroupElem g = g := by
  cases g with
  | group id n ae src ch ended =>
      cases ended with
      | false => simp [isClosedGroup] at h1
      | true =>
          rw [invE_group] at h2
          simp only [Bool.not_true, Bool.false_or, Bool.and_eq_true] at h2
          rw [endGroupElem_group, endChildren_none_of_allClosed ch h2.1]
  | simple s id v sev src cnt => simp [isClosedGroup] at h1
  | rawObject id n v src an => simp [isClosedGroup] at h1
  | evalInput id v => simp [isClosedGroup] at h1
  | evalResult id a => simp [isClosedGroup] at h1

/-- `endGroup` on an invariant store never removes a closed-group
subtree. -/
theorem closedGroups_endGroup_mem (m : ReplModel) (hInv : invL m.replElements = true) :
    ∀ g ∈ closedGroupsL m.replElements, g ∈ closedGroupsL (m.endGroup).replElements := by
  intro g hgmem
  rcases endGroup_cases m with ⟨heq, _⟩ | ⟨e, hg, hge, heq⟩
  · rw [heq]; exact hgmem
  · rw [heq]
    show g ∈ closedGroupsL (m.replElements.dropLast ++ [endGroupElem e])
    obtain ⟨ys, hys⟩ := List.getLast?_eq_some_iff.mp hg
    rw [hys, List.dropLast_concat, closedGroupsL_append, closedGroupsL_cons,
      closedGroupsL_nil, List.append_nil]
    rw [hys, closedGroupsL_append, closedGroupsL_cons, closedGroupsL_nil,
      List.append_nil] at hgmem
    rcases List.mem_append.mp hgmem with hl | hr
    · exact List.mem_append.mpr (Or.inl hl)
    · have heinv : invE e = true := (invL_concat_elim ys e (hys ▸ hInv)).2
      exact List.mem_append.mpr (Or.inr (closedGroups_endGroupElem_mem e heinv g hr))

/-- C8: in every store state reachable through the public API, a group's
children are only ever appended while the group is open: inserting an
entry (below the retention bound) leaves every closed-group subtree in
place and unchanged, appending only the new entry's own closed groups,
and the coalescing policy changes no closed group at all; `endGroup`
preserves every closed-group subtree verbatim (a closed flag is never
reset: closing is irreversible); and `end()` on any closed group
occurring anywhere in the store leaves it entirely unchanged (closing is
idempotent). -/
theorem c8_group_closure (m : ReplModel) (hr : Reachable m) :
    (∀ e, m.replElements.length < MAX_REPL_LENGTH →
      closedGroupsL (m.addReplElement e).replElements =
        closedGroupsL m.replElements ++ closedGroupsE e) ∧
    (∀ s data sev src, m.replElements.length < MAX_REPL_LENGTH →
      closedGroupsL (m.appendSimple s data sev src).replElements =
        closedGroupsL m.replElements) ∧
    (∀ g ∈ closedGroupsL m.replElements,
      g ∈ closedGroupsL (m.endGroup).replElements) ∧
    (∀ g ∈ elemsOfL m.replElements, isClosedGroup g = true → endGroupElem g = g) := by
  have hInv := reachable_inv m hr
  refine ⟨?_, ?_, ?_, ?_⟩
  · intro e hlen
    exact closedGroups_addReplElement m e hlen
  · intro s data sev src hlen
    exact closedGroups_appendSimple m s data sev src hlen
  · exact closedGroups_endGroup_mem m hInv
  · intro g hgmem hclosed
    obtain ⟨x, hx, hgx⟩ := elemsOfL_mem_split g m.replElements hgmem
    exact endGroupElem_closed_id g hclosed
      (invE_elemsOf x (invL_mem m.replElements hInv x hx) g hgx)

theorem c8_witness :
    ReplElement.group (.groupId 0) "A" false none [] true ∈
      closedGroupsL (((((ReplModel.mkEmpty true).startGroup "A" false
        none).endGroup).endGroup).replElements) ∧
    endGroupElem (ReplElement.group (.groupId 0) "A" false none [] true) =
      ReplElement.group (.groupId 0) "A" false none [] true := by
  have hr : Reachable (((ReplModel.mkEmpty true).startGroup "A" false none).endGroup) :=
    Reachable.endG _ (Reachable.start _ "A" false none (Reachable.empty true))
  obtain ⟨h1, h2, h3, h4⟩ := c8_group_closure _ hr
  constructor
  · apply h3
    show ReplElement.group (.groupId 0) "A" false none [] true ∈
      [ReplElement.group (.groupId 0) "A" false none [] true]
    exact List.mem_singleton.mpr rfl
  · apply h4 (ReplElement.group (.groupId 0) "A" false none [] true) ?_ rfl
    show ReplElement.group (.groupId 0) "A" false none [] true ∈
      [ReplElement.group (.groupId 0) "A" false none [] true]
    exact List.mem_singleton.mpr rfl
